import Mathlib

/-!
Verification of `SIMDSwiftSuppliment.h`.

A shallow embedding of the inline helpers of `SIMD/SIMDSwiftSuppliment.h`
(`float2_equal`, `float2_nearly_equal`, `rint_float2`, `float2_any_minum`,
`float4_equal`, `float4_nearly_equal`, `rint_float4`).  The two wrappers
`vector_sin` and `vector_cos` call the single-precision sine and cosine of
the math library, whose results IEEE-754 does not fix, and are left out.

The helpers are one-line compositions of primitives of `<simd/simd.h>`:
lanewise `==`, `<`, `-` on single-precision vectors, `vector_abs`, `rint`,
`vector_all`, `vector_any`.  A single-precision lane is held as its 32-bit
IEEE-754 pattern and the primitives are given their IEEE-754 binary32
meaning in the default rounding direction (to nearest, ties to even).  All
arithmetic is exact integer arithmetic on values counted in units of
`2^-149`, the spacing of the subnormal numbers, of which every finite
binary32 value is an integer multiple.
-/

namespace SIMD

/-! ## Single-precision lanes -/

/-- A binary32 value, held as its 32-bit pattern: bit 31 is the sign, bits
30..23 the biased exponent, bits 22..0 the fraction. -/
structure float where
  bits : Nat
  isLt : bits < 4294967296
deriving DecidableEq

/-- The lane with the given pattern (reduced to 32 bits). -/
def ofBits (n : Nat) : float :=
  ⟨n % 4294967296, Nat.mod_lt _ (by decide)⟩

/-- Sign bit (bit 31). -/
def signBit (x : float) : Bool := decide (2147483648 ≤ x.bits)

/-- The pattern with the sign bit cleared: exponent and fraction. -/
def magBits (x : float) : Nat := x.bits % 2147483648

/-- The sign bit of `x` as a pattern: `0x80000000` or `0`. -/
def signPart (x : float) : Nat := if signBit x then 2147483648 else 0

/-- NaN: exponent field 255 and a nonzero fraction, that is, a magnitude
pattern above `0x7f800000`. -/
def isNaN (x : float) : Bool := decide (2139095040 < magBits x)

/-- Infinity: exponent field 255 and a zero fraction. -/
def isInf (x : float) : Bool := decide (magBits x = 2139095040)

/-- Finite: exponent field below 255. -/
def isFinite (x : float) : Bool := decide (magBits x < 2139095040)

/-- The magnitude a sign-cleared pattern `m` stands for, in units of
`2^-149`: the fraction itself for a subnormal (exponent field 0), the
24-bit significand shifted by the exponent otherwise.  At `0x7f800000`
(infinity) this is `2^277`, above every finite magnitude, which is the
place of infinity in the order. -/
def magnitude (m : Nat) : Nat :=
  if m / 8388608 = 0 then m % 8388608
  else (8388608 + m % 8388608) * 2 ^ (m / 8388608 - 1)

/-- The signed value of a lane that is not NaN, in units of `2^-149`
(both zeros give 0, the infinities give `2^277` and `-2^277`). -/
def toInt (x : float) : Int :=
  if signBit x then -(magnitude (magBits x) : Int) else (magnitude (magBits x) : Int)

/-- The value of a finite lane as a rational number (an infinite lane gets
`2^128` or `-2^128`). -/
def toRat (x : float) : ℚ := (toInt x : ℚ) / 2 ^ 149

/-- The lane comparison `==`: false when either side is NaN, otherwise
equality of the values (so `+0.0 == -0.0`). -/
def feq (a b : float) : Bool :=
  !isNaN a && !isNaN b && decide (toInt a = toInt b)

/-- The lane comparison `<`: false when either side is NaN, otherwise the
order of the values. -/
def flt (a b : float) : Bool :=
  !isNaN a && !isNaN b && decide (toInt a < toInt b)

/-- Lane `fabs`: clears the sign bit (of a NaN too). -/
def fabs (x : float) : float := ofBits (magBits x)

/-- Lane negation: flips the sign bit. -/
def fneg (x : float) : float :=
  ofBits (if signBit x then magBits x else 2147483648 + magBits x)

/-- A NaN operand as it comes out of an arithmetic operation: the same
pattern with the quiet bit (bit 22) set. -/
def quiet (x : float) : float :=
  ofBits (if (x.bits / 4194304) % 2 = 1 then x.bits else x.bits + 4194304)

/-- The NaN an invalid operation (`inf - inf`) produces, taken with a clear
sign bit; only its being a NaN is used. -/
def defaultNaN : float := ofBits 2143289344

/-- Division of `n` by `2^s`, rounded to the nearest integer, a tie going
to the even one. -/
def rne (n s : Nat) : Nat :=
  if 2 ^ s < 2 * (n % 2 ^ s) ∨ (2 * (n % 2 ^ s) = 2 ^ s ∧ (n / 2 ^ s) % 2 = 1)
  then n / 2 ^ s + 1 else n / 2 ^ s

/-- Number of low bits of `n` that do not fit a 24-bit significand whose
last place is at least `2^-149`: the largest `s ≤ 254` with
`2^s * 2^23 ≤ n`, 0 when there is none. -/
def dropBits (n : Nat) : Nat :=
  Nat.findGreatest (fun s => 2 ^ s * 8388608 ≤ n) 254

/-- Rounding of a magnitude `n` (in units of `2^-149`) to the sign-cleared
pattern of the nearest binary32 magnitude, ties to even; a magnitude that
rounds to `2^128` or beyond gives the pattern of infinity.  The rounded
significand is added to the exponent field, so a carry out of the
significand moves to the next exponent. -/
def roundBits (n : Nat) : Nat :=
  min (dropBits n * 8388608 + rne n (dropBits n)) 2139095040

/-- Sum of two finite lanes, rounded to nearest even.  An exact zero sum
is `+0.0` unless both operands are negative (zeros). -/
def addFinite (a b : float) : float :=
  if toInt a + toInt b = 0 then
    (if signBit a && signBit b then ofBits 2147483648 else ofBits 0)
  else if toInt a + toInt b < 0 then
    ofBits (2147483648 + roundBits (toInt a + toInt b).natAbs)
  else ofBits (roundBits (toInt a + toInt b).natAbs)

/-- Lane addition `a + b`. -/
def fadd (a b : float) : float :=
  if isNaN a then quiet a
  else if isNaN b then quiet b
  else if isInf a then (if isInf b && (signBit a != signBit b) then defaultNaN else a)
  else if isInf b then b
  else addFinite a b

/-- Lane subtraction `a - b`: the sum of `a` and `-b`. -/
def fsub (a b : float) : float :=
  if isNaN a then quiet a
  else if isNaN b then quiet b
  else fadd a (fneg b)

/-- Lane `rintf` in the default rounding direction: NaN stays NaN,
infinity stays, a finite lane goes to the integer nearest to its value
(ties to even) with the sign of the operand kept. -/
def rintf (x : float) : float :=
  if isNaN x then quiet x
  else if isInf x then x
  else ofBits (signPart x + roundBits (rne (magnitude (magBits x)) 149 * 2 ^ 149))

/-- The constant `FLT_EPSILON` of `<float.h>`: `2^-23`, pattern `0x34000000`. -/
def FLT_EPSILON : float := ofBits 872415232

/-- The integer constant `0` converted to a lane: `+0.0`. -/
def zero : float := ofBits 0

/-! ## Named lane values used in the statements -/

/-- The lane `-0.0`, pattern `0x80000000`. -/
def negZero : float := ofBits 2147483648

/-- The lane `1.0`, pattern `0x3f800000`. -/
def one : float := ofBits 1065353216

/-- The lane `2.0`, pattern `0x40000000`. -/
def two : float := ofBits 1073741824

/-- The lane `-2.0`, pattern `0xc0000000`. -/
def negTwo : float := ofBits 3221225472

/-- The lane `2.5`, pattern `0x40200000`. -/
def twoAndHalf : float := ofBits 1075838976

/-- The lane `-2.5`, pattern `0xc0200000`. -/
def negTwoAndHalf : float := ofBits 3223322624

/-- The lane `4.0`, pattern `0x40800000`. -/
def four : float := ofBits 1082130432

/-- The lane nearest to `-0.1`, pattern `0xbdcccccd`. -/
def negTenth : float := ofBits 3184315597

/-- The smallest positive lane `2^-149`, pattern `0x00000001`. -/
def minSubnormal : float := ofBits 1

/-- The lane `+infinity`, pattern `0x7f800000`. -/
def posInf : float := ofBits 2139095040

/-- The quiet NaN with pattern `0x7fc00000`. -/
def qNaN : float := ofBits 2143289344

/-! ## Vectors -/

/-- The type `vector_float2`: two single-precision lanes. -/
structure vector_float2 where
  x : float
  y : float
deriving DecidableEq

/-- The type `vector_float4`: four single-precision lanes. -/
structure vector_float4 where
  x : float
  y : float
  z : float
  w : float
deriving DecidableEq

/-- The type `vector_int2`, the result type of a comparison of two
`vector_float2`: 32-bit signed lanes. -/
structure vector_int2 where
  x : Int
  y : Int
deriving DecidableEq

/-- The type `vector_int4`, the result type of a comparison of two
`vector_float4`. -/
structure vector_int4 where
  x : Int
  y : Int
  z : Int
  w : Int
deriving DecidableEq

/-- A lane of a vector comparison: all bits set (`-1`) where the comparison
holds, `0` where it does not. -/
def mask (b : Bool) : Int := if b then -1 else 0

/-- Lane `i` of a `vector_float2`. -/
def vector_float2.lane (v : vector_float2) (i : Fin 2) : float :=
  if i.val = 0 then v.x else v.y

/-- Lane `i` of a `vector_float4`. -/
def vector_float4.lane (v : vector_float4) (i : Fin 4) : float :=
  if i.val = 0 then v.x else if i.val = 1 then v.y else if i.val = 2 then v.z else v.w

/-- The vector `v` with lane `i` replaced by `c`. -/
def vector_float2.setLane (v : vector_float2) (i : Fin 2) (c : float) : vector_float2 :=
  if i.val = 0 then { v with x := c } else { v with y := c }

/-- The vector `v` with lane `i` replaced by `c`. -/
def vector_float4.setLane (v : vector_float4) (i : Fin 4) (c : float) : vector_float4 :=
  if i.val = 0 then { v with x := c } else if i.val = 1 then { v with y := c }
  else if i.val = 2 then { v with z := c } else { v with w := c }

namespace V2

/-- A scalar operand of a vector operator: every lane holds it. -/
def splat (c : float) : vector_float2 := ⟨c, c⟩

/-- Lanewise `lhs == rhs`. -/
def eq (lhs rhs : vector_float2) : vector_int2 :=
  ⟨mask (feq lhs.x rhs.x), mask (feq lhs.y rhs.y)⟩

/-- Lanewise `lhs < rhs`. -/
def lt (lhs rhs : vector_float2) : vector_int2 :=
  ⟨mask (flt lhs.x rhs.x), mask (flt lhs.y rhs.y)⟩

/-- Lanewise `lhs - rhs`. -/
def sub (lhs rhs : vector_float2) : vector_float2 :=
  ⟨fsub lhs.x rhs.x, fsub lhs.y rhs.y⟩

/-- The primitive `vector_abs` on `vector_float2`. -/
def vector_abs (v : vector_float2) : vector_float2 := ⟨fabs v.x, fabs v.y⟩

/-- The primitive `rint` on `vector_float2`. -/
def rint (v : vector_float2) : vector_float2 := ⟨rintf v.x, rintf v.y⟩

/-- The primitive `vector_all`: the high-order bit of every lane is set. -/
def vector_all (m : vector_int2) : Bool := decide (m.x < 0) && decide (m.y < 0)

/-- The primitive `vector_any`: the high-order bit of some lane is set. -/
def vector_any (m : vector_int2) : Bool := decide (m.x < 0) || decide (m.y < 0)

end V2

namespace V4

/-- A scalar operand of a vector operator: every lane holds it. -/
def splat (c : float) : vector_float4 := ⟨c, c, c, c⟩

/-- Lanewise `lhs == rhs`. -/
def eq (lhs rhs : vector_float4) : vector_int4 :=
  ⟨mask (feq lhs.x rhs.x), mask (feq lhs.y rhs.y), mask (feq lhs.z rhs.z),
    mask (feq lhs.w rhs.w)⟩

/-- Lanewise `lhs < rhs`. -/
def lt (lhs rhs : vector_float4) : vector_int4 :=
  ⟨mask (flt lhs.x rhs.x), mask (flt lhs.y rhs.y), mask (flt lhs.z rhs.z),
    mask (flt lhs.w rhs.w)⟩

/-- Lanewise `lhs - rhs`. -/
def sub (lhs rhs : vector_float4) : vector_float4 :=
  ⟨fsub lhs.x rhs.x, fsub lhs.y rhs.y, fsub lhs.z rhs.z, fsub lhs.w rhs.w⟩

/-- The primitive `vector_abs` on `vector_float4`. -/
def vector_abs (v : vector_float4) : vector_float4 :=
  ⟨fabs v.x, fabs v.y, fabs v.z, fabs v.w⟩

/-- The primitive `rint` on `vector_float4`. -/
def rint (v : vector_float4) : vector_float4 :=
  ⟨rintf v.x, rintf v.y, rintf v.z, rintf v.w⟩

/-- The primitive `vector_all`: the high-order bit of every lane is set. -/
def vector_all (m : vector_int4) : Bool :=
  decide (m.x < 0) && decide (m.y < 0) && decide (m.z < 0) && decide (m.w < 0)

end V4

/-! ## The functions of the header -/

/-- Source: `float2_equal`, `return vector_all(lhs == rhs);`. -/
def float2_equal (lhs rhs : vector_float2) : Bool :=
  V2.vector_all (V2.eq lhs rhs)

/-- Source: `float2_nearly_equal`,
`return vector_all(vector_abs(lhs - rhs) < FLT_EPSILON);`. -/
def float2_nearly_equal (lhs rhs : vector_float2) : Bool :=
  V2.vector_all (V2.lt (V2.vector_abs (V2.sub lhs rhs)) (V2.splat FLT_EPSILON))

/-- Source: `rint_float2`, `return rint(__x);`. -/
def rint_float2 (x : vector_float2) : vector_float2 :=
  V2.rint x

/-- Source: `float2_any_minum`, `return vector_any(x < 0);`. -/
def float2_any_minum (x : vector_float2) : Bool :=
  V2.vector_any (V2.lt x (V2.splat zero))

/-- Source: `float4_equal`, `return vector_all(lhs == rhs);`. -/
def float4_equal (lhs rhs : vector_float4) : Bool :=
  V4.vector_all (V4.eq lhs rhs)

/-- Source: `float4_nearly_equal`,
`return vector_all(vector_abs(lhs - rhs) < FLT_EPSILON);`. -/
def float4_nearly_equal (lhs rhs : vector_float4) : Bool :=
  V4.vector_all (V4.lt (V4.vector_abs (V4.sub lhs rhs)) (V4.splat FLT_EPSILON))

/-- Source: `rint_float4`, `return rint(__x);`. -/
def rint_float4 (x : vector_float4) : vector_float4 :=
  V4.rint x

/-! ## Patterns -/

theorem ofBits_bits {n : Nat} (h : n < 4294967296) : (ofBits n).bits = n := by
  simp only [ofBits]
  exact Nat.mod_eq_of_lt h

theorem float_ext {x y : float} (h : x.bits = y.bits) : x = y := by
  cases x
  cases y
  simp only [float.mk.injEq]
  exact h

theorem bits_split (x : float) : x.bits = signPart x + magBits x := by
  have := x.isLt
  unfold signPart signBit magBits
  split <;> simp_all <;> omega

theorem magBits_lt (x : float) : magBits x < 2147483648 := by
  unfold magBits
  omega

theorem magBits_ofBits_pos {m : Nat} (h : m < 2147483648) : magBits (ofBits m) = m := by
  unfold magBits
  rw [ofBits_bits (by omega)]
  omega

theorem magBits_ofBits_neg {m : Nat} (h : m < 2147483648) :
    magBits (ofBits (2147483648 + m)) = m := by
  unfold magBits
  rw [ofBits_bits (by omega)]
  omega

theorem signBit_ofBits_pos {m : Nat} (h : m < 2147483648) : signBit (ofBits m) = false := by
  unfold signBit
  rw [ofBits_bits (by omega)]
  simp
  omega

theorem signBit_ofBits_neg {m : Nat} (h : m < 2147483648) :
    signBit (ofBits (2147483648 + m)) = true := by
  unfold signBit
  rw [ofBits_bits (by omega)]
  simp

theorem magBits_signPart (x : float) {m : Nat} (h : m < 2147483648) :
    magBits (ofBits (signPart x + m)) = m := by
  unfold signPart
  split
  · exact magBits_ofBits_neg h
  · simpa using magBits_ofBits_pos h

theorem signBit_signPart (x : float) {m : Nat} (h : m < 2147483648) :
    signBit (ofBits (signPart x + m)) = signBit x := by
  unfold signPart
  split
  · rename_i hs
    rw [signBit_ofBits_neg h, hs]
  · rename_i hs
    simp only [Nat.zero_add]
    rw [signBit_ofBits_pos h]
    simpa using hs

/-! ## Rounding -/

theorem rne_mul_pow (k s : Nat) : rne (k * 2 ^ s) s = k := by
  have hp : 0 < 2 ^ s := Nat.pos_pow_of_pos s (by decide)
  unfold rne
  rw [Nat.mul_mod_left, Nat.mul_div_cancel _ hp]
  have : ¬ (2 ^ s < 2 * 0 ∨ (2 * 0 = 2 ^ s ∧ k % 2 = 1)) := by omega
  rw [if_neg this]

theorem rne_zero (n : Nat) : rne n 0 = n := by
  unfold rne
  simp [Nat.mod_one]

theorem dropBits_eq {n s : Nat} (hs : s ≤ 254) (h1 : 2 ^ s * 8388608 ≤ n)
    (h2 : n < 2 ^ (s + 1) * 8388608) : dropBits n = s := by
  unfold dropBits
  rw [Nat.findGreatest_eq_iff]
  refine ⟨hs, fun _ => h1, ?_⟩
  intro t hst _ hP
  have : 2 ^ (s + 1) ≤ 2 ^ t := Nat.pow_le_pow_right (by decide) hst
  have : 2 ^ (s + 1) * 8388608 ≤ 2 ^ t * 8388608 := Nat.mul_le_mul_right _ this
  omega

theorem dropBits_small {n : Nat} (h : n < 16777216) : dropBits n = 0 := by
  unfold dropBits
  rw [Nat.findGreatest_eq_iff]
  refine ⟨by omega, fun h0 => absurd rfl h0, ?_⟩
  intro t ht _ hP
  have : 2 ^ 1 ≤ 2 ^ t := Nat.pow_le_pow_right (by decide) ht
  have : 2 ^ 1 * 8388608 ≤ 2 ^ t * 8388608 := Nat.mul_le_mul_right _ this
  omega

/-- Encoding inverts decoding: the magnitude of a pattern up to infinity
rounds back to that pattern. -/
theorem roundBits_magnitude {m : Nat} (hm : m ≤ 2139095040) :
    roundBits (magnitude m) = m := by
  unfold roundBits magnitude
  by_cases hE : m / 8388608 = 0
  · rw [if_pos hE]
    have h1 : m % 8388608 = m := by omega
    rw [h1, dropBits_small (by omega), rne_zero]
    omega
  · rw [if_neg hE]
    have hs : m / 8388608 - 1 ≤ 254 := by omega
    have hp : 0 < 2 ^ (m / 8388608 - 1) := Nat.pos_pow_of_pos _ (by decide)
    have hd : dropBits ((8388608 + m % 8388608) * 2 ^ (m / 8388608 - 1)) = m / 8388608 - 1 := by
      apply dropBits_eq hs
      · rw [Nat.mul_comm]
        exact Nat.mul_le_mul_right _ (by omega)
      · rw [Nat.pow_succ, Nat.mul_comm (2 ^ (m / 8388608 - 1)) 2, Nat.mul_assoc,
          Nat.mul_comm (2 ^ (m / 8388608 - 1)) 8388608, ← Nat.mul_assoc]
        exact Nat.mul_lt_mul_of_pos_right (by omega) hp
    rw [hd, rne_mul_pow]
    omega

theorem magnitude_inj {m n : Nat} (hm : m ≤ 2139095040) (hn : n ≤ 2139095040)
    (h : magnitude m = magnitude n) : m = n := by
  rw [← roundBits_magnitude hm, ← roundBits_magnitude hn, h]

theorem magnitude_eq_zero {m : Nat} : magnitude m = 0 ↔ m = 0 := by
  unfold magnitude
  constructor
  · intro h
    by_cases hE : m / 8388608 = 0
    · rw [if_pos hE] at h
      omega
    · rw [if_neg hE] at h
      have hp : 0 < 2 ^ (m / 8388608 - 1) := Nat.pos_pow_of_pos _ (by decide)
      have : 0 < (8388608 + m % 8388608) * 2 ^ (m / 8388608 - 1) :=
        Nat.mul_pos (by omega) hp
      omega
  · intro h
    subst h
    simp

/-! ## Lanes and masks -/

theorem forall_lanes2 (a b : vector_float2) (P : float → float → Prop) :
    (∀ i : Fin 2, P (a.lane i) (b.lane i)) ↔ P a.x b.x ∧ P a.y b.y := by
  rw [Fin.forall_fin_two]
  simp [vector_float2.lane]

theorem forall_lanes4 (a b : vector_float4) (P : float → float → Prop) :
    (∀ i : Fin 4, P (a.lane i) (b.lane i)) ↔
      P a.x b.x ∧ P a.y b.y ∧ P a.z b.z ∧ P a.w b.w := by
  simp [Fin.forall_fin_succ, vector_float4.lane]

theorem exists_lane2 (v : vector_float2) (P : float → Prop) :
    (∃ i : Fin 2, P (v.lane i)) ↔ P v.x ∨ P v.y := by
  rw [Fin.exists_fin_two]
  simp [vector_float2.lane]

theorem mask_neg (b : Bool) : mask b < 0 ↔ b = true := by
  cases b <;> simp [mask]

theorem float2_equal_iff (a b : vector_float2) :
    float2_equal a b = true ↔ feq a.x b.x = true ∧ feq a.y b.y = true := by
  simp [float2_equal, V2.vector_all, V2.eq, mask_neg]

theorem float4_equal_iff (a b : vector_float4) :
    float4_equal a b = true ↔
      feq a.x b.x = true ∧ feq a.y b.y = true ∧ feq a.z b.z = true ∧ feq a.w b.w = true := by
  simp [float4_equal, V4.vector_all, V4.eq, mask_neg, and_assoc]

/-! ## Comparison of lanes -/

theorem not_nan_le {x : float} (h : isNaN x = false) : magBits x ≤ 2139095040 := by
  unfold isNaN at h
  simpa using h

theorem toInt_eq_zero {x : float} : toInt x = 0 ↔ magBits x = 0 := by
  unfold toInt
  split <;> simp [magnitude_eq_zero]

theorem toInt_neg_iff {x : float} : toInt x < 0 ↔ signBit x = true ∧ magBits x ≠ 0 := by
  unfold toInt
  split
  · rename_i h
    simp only [h, true_and, Int.neg_neg_iff_pos, Int.ofNat_pos, Nat.pos_iff_ne_zero, ne_eq,
      magnitude_eq_zero]
  · rename_i h
    have hn : (0 : Int) ≤ (magnitude (magBits x) : Int) := Int.ofNat_nonneg _
    constructor
    · intro hc
      omega
    · rintro ⟨hs, _⟩
      exact absurd hs h

theorem toInt_eq_iff {a b : float} (ha : isNaN a = false) (hb : isNaN b = false) :
    toInt a = toInt b ↔ a.bits = b.bits ∨ (magBits a = 0 ∧ magBits b = 0) := by
  constructor
  · intro h
    by_cases h0 : magBits a = 0
    · right
      refine ⟨h0, ?_⟩
      rw [← toInt_eq_zero, ← h, toInt_eq_zero]
      exact h0
    · left
      have hne : magnitude (magBits a) ≠ 0 := fun hc => h0 (magnitude_eq_zero.mp hc)
      have hsa := bits_split a
      have hsb := bits_split b
      unfold toInt at h
      unfold signPart at hsa hsb
      by_cases sa : signBit a = true <;> by_cases sb : signBit b = true <;>
        simp only [sa, sb, if_true, if_false, Bool.false_eq_true] at h hsa hsb
      · have hm := magnitude_inj (not_nan_le ha) (not_nan_le hb) (by omega)
        omega
      · omega
      · omega
      · have hm := magnitude_inj (not_nan_le ha) (not_nan_le hb) (by omega)
        omega
  · rintro (h | ⟨h1, h2⟩)
    · rw [float_ext h]
    · rw [toInt_eq_zero.mpr h1, toInt_eq_zero.mpr h2]

theorem feq_iff (a b : float) :
    feq a b = true ↔ isNaN a = false ∧ isNaN b = false ∧
      (a.bits = b.bits ∨ (magBits a = 0 ∧ magBits b = 0)) := by
  unfold feq
  simp only [Bool.and_eq_true, Bool.not_eq_true', decide_eq_true_eq]
  constructor
  · rintro ⟨⟨ha, hb⟩, h⟩
    exact ⟨ha, hb, (toInt_eq_iff ha hb).mp h⟩
  · rintro ⟨ha, hb, h⟩
    exact ⟨⟨ha, hb⟩, (toInt_eq_iff ha hb).mpr h⟩

theorem feq_self (a : float) : feq a a = !isNaN a := by
  unfold feq
  simp

theorem feq_comm (a b : float) : feq a b = feq b a := by
  unfold feq
  rw [Bool.and_comm (!isNaN a) (!isNaN b)]
  congr 1
  exact decide_eq_decide.mpr eq_comm

theorem feq_nan_left {a : float} (b : float) (h : isNaN a = true) : feq a b = false := by
  unfold feq
  simp [h]

theorem feq_nan_right (a : float) {b : float} (h : isNaN b = true) : feq a b = false := by
  unfold feq
  simp [h]

theorem flt_zero_iff (x : float) :
    flt x zero = true ↔ isNaN x = false ∧ toInt x < 0 := by
  unfold flt
  have hz : isNaN zero = false := by decide
  have hz2 : toInt zero = 0 := by decide
  simp [hz, hz2]

theorem flt_zero_bits (x : float) :
    flt x zero = true ↔ 2147483648 < x.bits ∧ x.bits ≤ 4286578688 := by
  rw [flt_zero_iff, toInt_neg_iff]
  have hs := bits_split x
  have hm := magBits_lt x
  have hx := x.isLt
  unfold isNaN
  unfold signPart at hs
  rw [decide_eq_false_iff_not]
  by_cases sa : signBit x = true
  · simp only [sa, if_true] at hs
    simp only [sa, true_and]
    omega
  · simp only [sa, if_false, Bool.false_eq_true] at hs
    simp only [sa, Bool.false_eq_true, false_and, and_false, false_iff]
    omega

theorem float2_any_minum_iff (v : vector_float2) :
    float2_any_minum v = true ↔ flt v.x zero = true ∨ flt v.y zero = true := by
  simp [float2_any_minum, V2.vector_any, V2.lt, V2.splat, mask_neg]

/-! ## Sign operations and NaN -/

theorem magBits_fabs (x : float) : magBits (fabs x) = magBits x := by
  unfold fabs
  exact magBits_ofBits_pos (magBits_lt x)

theorem signBit_fabs (x : float) : signBit (fabs x) = false := by
  unfold fabs
  exact signBit_ofBits_pos (magBits_lt x)

theorem isNaN_fabs (x : float) : isNaN (fabs x) = isNaN x := by
  unfold isNaN
  rw [magBits_fabs]

theorem toInt_fabs (x : float) : toInt (fabs x) = (magnitude (magBits x) : Int) := by
  unfold toInt
  rw [signBit_fabs, magBits_fabs]
  simp

theorem abs_toInt (x : float) : |toInt x| = (magnitude (magBits x) : Int) := by
  unfold toInt
  split
  · rw [abs_neg]
    exact abs_of_nonneg (Int.ofNat_nonneg _)
  · exact abs_of_nonneg (Int.ofNat_nonneg _)

theorem magBits_fneg (x : float) : magBits (fneg x) = magBits x := by
  have hm := magBits_lt x
  unfold fneg
  split
  · exact magBits_ofBits_pos hm
  · exact magBits_ofBits_neg hm

theorem signBit_fneg (x : float) : signBit (fneg x) = !signBit x := by
  have hm := magBits_lt x
  unfold fneg
  split
  · rename_i h
    rw [signBit_ofBits_pos hm, h]
    rfl
  · rename_i h
    rw [signBit_ofBits_neg hm]
    simpa using h

theorem isNaN_fneg (x : float) : isNaN (fneg x) = isNaN x := by
  unfold isNaN
  rw [magBits_fneg]

theorem isInf_fneg (x : float) : isInf (fneg x) = isInf x := by
  unfold isInf
  rw [magBits_fneg]

theorem toInt_fneg (x : float) : toInt (fneg x) = -toInt x := by
  unfold toInt
  rw [signBit_fneg, magBits_fneg]
  cases signBit x <;> simp

theorem quiet_bits (x : float) :
    (quiet x).bits = if (x.bits / 4194304) % 2 = 1 then x.bits else x.bits + 4194304 := by
  have hx := x.isLt
  unfold quiet
  apply ofBits_bits
  split <;> omega

theorem isNaN_quiet {x : float} (h : isNaN x = true) : isNaN (quiet x) = true := by
  have hx := x.isLt
  have hq := quiet_bits x
  unfold isNaN magBits at *
  simp only [decide_eq_true_eq] at *
  split at hq <;> omega

theorem quiet_quiet (x : float) : quiet (quiet x) = quiet x := by
  apply float_ext
  have hx := x.isLt
  have hq := quiet_bits x
  rw [quiet_bits (quiet x)]
  split at hq <;> split <;> omega

theorem finite_not_nan {x : float} (h : isFinite x = true) : isNaN x = false := by
  unfold isFinite at h
  unfold isNaN
  simp only [decide_eq_true_eq] at h
  simp only [decide_eq_false_iff_not]
  omega

theorem finite_not_inf {x : float} (h : isFinite x = true) : isInf x = false := by
  unfold isFinite at h
  unfold isInf
  simp only [decide_eq_true_eq] at h
  simp only [decide_eq_false_iff_not]
  omega

theorem finite_of_not {x : float} (h1 : isNaN x = false) (h2 : isInf x = false) :
    isFinite x = true := by
  unfold isFinite
  unfold isNaN at h1
  unfold isInf at h2
  simp only [decide_eq_false_iff_not] at h1 h2
  simp only [decide_eq_true_eq]
  omega

/-! ## Subtraction -/

theorem roundBits_le (n : Nat) : roundBits n ≤ 2139095040 := by
  unfold roundBits
  exact Nat.min_le_right _ _

theorem fsub_finite {a b : float} (ha : isFinite a = true) (hb : isFinite b = true) :
    fsub a b = addFinite a (fneg b) := by
  unfold fsub fadd
  simp [finite_not_nan ha, finite_not_nan hb, finite_not_inf ha, finite_not_inf hb,
    isNaN_fneg, isInf_fneg]

theorem fadd_finite {a b : float} (ha : isFinite a = true) (hb : isFinite b = true) :
    fadd a b = addFinite a b := by
  unfold fadd
  simp [finite_not_nan ha, finite_not_nan hb, finite_not_inf ha, finite_not_inf hb]

theorem magBits_addFinite_zero {a b : float} (h : toInt a + toInt b = 0) :
    magBits (addFinite a b) = 0 := by
  unfold addFinite
  rw [if_pos h]
  split <;> decide

theorem magBits_addFinite {a b : float} (h : toInt a + toInt b ≠ 0) :
    magBits (addFinite a b) = roundBits (toInt a + toInt b).natAbs := by
  have hr := roundBits_le (toInt a + toInt b).natAbs
  unfold addFinite
  rw [if_neg h]
  split
  · exact magBits_ofBits_neg (by omega)
  · exact magBits_ofBits_pos (by omega)

theorem signBit_addFinite {a b : float} (h : toInt a + toInt b ≠ 0) :
    signBit (addFinite a b) = decide (toInt a + toInt b < 0) := by
  have hr := roundBits_le (toInt a + toInt b).natAbs
  unfold addFinite
  rw [if_neg h]
  split
  · rename_i hlt
    rw [signBit_ofBits_neg (by omega)]
    simp [hlt]
  · rename_i hlt
    rw [signBit_ofBits_pos (by omega)]
    simp [hlt]

/-- A sum of two finite lanes whose exact value is a binary32 value (given
by its sign-cleared pattern `m`) is that value. -/
theorem toInt_addFinite_exact {a b : float} {m : Nat} (hm : m ≤ 2139095040)
    (h : (toInt a + toInt b).natAbs = magnitude m) :
    toInt (addFinite a b) = toInt a + toInt b := by
  by_cases h0 : toInt a + toInt b = 0
  · have := magBits_addFinite_zero h0
    rw [toInt_eq_zero.mpr this, h0]
  · have hs := signBit_addFinite h0
    have hg := magBits_addFinite h0
    rw [h, roundBits_magnitude hm] at hg
    generalize toInt a + toInt b = s at h h0 hs
    unfold toInt
    rw [hs, hg, ← h]
    by_cases hlt : s < 0
    · simp only [hlt, decide_True, if_true]
      omega
    · simp only [hlt, decide_False, if_false, Bool.false_eq_true]
      omega

/-! ## The tolerance test -/

theorem isNaN_eps : isNaN FLT_EPSILON = false := by decide

theorem toInt_eps : toInt FLT_EPSILON = 2 ^ 126 := by
  have h : (2 : Int) ^ 126 = 85070591730234615865843651857942052864 := by norm_num
  rw [h]
  decide

theorem roundBits_eps : roundBits (2 ^ 126) = 872415232 := by
  have h : (2 : Nat) ^ 126 = 85070591730234615865843651857942052864 := by norm_num
  rw [h]
  decide

theorem near_iff (d : float) :
    flt (fabs d) FLT_EPSILON = true ↔
      isNaN d = false ∧ magnitude (magBits d) < 2 ^ 126 := by
  unfold flt
  rw [isNaN_fabs, isNaN_eps, toInt_fabs, toInt_eps]
  simp only [Bool.not_false, Bool.and_true, Bool.and_eq_true, Bool.not_eq_true',
    decide_eq_true_eq]
  constructor
  · rintro ⟨h1, h2⟩
    exact ⟨h1, by exact_mod_cast h2⟩
  · rintro ⟨h1, h2⟩
    exact ⟨h1, by exact_mod_cast h2⟩

theorem toRat_eps : toRat FLT_EPSILON = 1 / 2 ^ 23 := by
  unfold toRat
  rw [toInt_eps]
  norm_num

theorem abs_toRat (x : float) : |toRat x| = (magnitude (magBits x) : ℚ) / 2 ^ 149 := by
  unfold toRat
  rw [abs_div, abs_of_pos (by positivity : (0 : ℚ) < 2 ^ 149)]
  congr 1
  have := abs_toInt x
  exact_mod_cast this

theorem abs_toRat_lt_eps (x : float) :
    |toRat x| < toRat FLT_EPSILON ↔ magnitude (magBits x) < 2 ^ 126 := by
  rw [abs_toRat, toRat_eps, div_lt_div_iff₀ (by positivity) (by positivity)]
  constructor
  · intro h
    have h2 : ((magnitude (magBits x) * 2 ^ 23 : Nat) : ℚ) < ((2 ^ 149 : Nat) : ℚ) := by
      push_cast
      linarith
    have h3 := Nat.cast_lt.mp h2
    omega
  · intro h
    have h2 : magnitude (magBits x) * 2 ^ 23 < 2 ^ 149 := by omega
    have h3 : ((magnitude (magBits x) * 2 ^ 23 : Nat) : ℚ) < ((2 ^ 149 : Nat) : ℚ) :=
      Nat.cast_lt.mpr h2
    push_cast at h3
    linarith

theorem near_iff_rat (d : float) :
    flt (fabs d) FLT_EPSILON = true ↔ isNaN d = false ∧ |toRat d| < toRat FLT_EPSILON := by
  rw [near_iff, abs_toRat_lt_eps]

theorem float2_nearly_equal_iff (a b : vector_float2) :
    float2_nearly_equal a b = true ↔
      flt (fabs (fsub a.x b.x)) FLT_EPSILON = true ∧
      flt (fabs (fsub a.y b.y)) FLT_EPSILON = true := by
  simp [float2_nearly_equal, V2.vector_all, V2.lt, V2.vector_abs, V2.sub, V2.splat, mask_neg]

theorem float4_nearly_equal_iff (a b : vector_float4) :
    float4_nearly_equal a b = true ↔
      flt (fabs (fsub a.x b.x)) FLT_EPSILON = true ∧
      flt (fabs (fsub a.y b.y)) FLT_EPSILON = true ∧
      flt (fabs (fsub a.z b.z)) FLT_EPSILON = true ∧
      flt (fabs (fsub a.w b.w)) FLT_EPSILON = true := by
  simp [float4_nearly_equal, V4.vector_all, V4.lt, V4.vector_abs, V4.sub, V4.splat, mask_neg,
    and_assoc]

/-! ## Rounding to an integer -/

/-- The quotient `rne n s` is within half a unit of `n / 2^s`, and is even
when it is exactly half a unit away. -/
theorem rne_spec (n s : Nat) :
    2 * n ≤ 2 * (rne n s * 2 ^ s) + 2 ^ s ∧ 2 * (rne n s * 2 ^ s) ≤ 2 * n + 2 ^ s ∧
    ((2 * n = 2 * (rne n s * 2 ^ s) + 2 ^ s ∨ 2 * (rne n s * 2 ^ s) = 2 * n + 2 ^ s) →
      rne n s % 2 = 0) := by
  have hp : 0 < 2 ^ s := Nat.pos_pow_of_pos s (by decide)
  have hd := Nat.div_add_mod n (2 ^ s)
  have hr := Nat.mod_lt n hp
  unfold rne
  generalize 2 ^ s = P at *
  generalize n / P = q at *
  generalize n % P = r at *
  by_cases hc : P < 2 * r ∨ (2 * r = P ∧ q % 2 = 1)
  · rw [if_pos hc]
    have e : (q + 1) * P = P * q + P := by ring
    rw [e]
    omega
  · rw [if_neg hc]
    have e : q * P = P * q := by ring
    rw [e]
    omega

theorem rne_mono_bound {n s c : Nat} (h : n < c * 2 ^ s) : rne n s ≤ c := by
  have hp : 0 < 2 ^ s := Nat.pos_pow_of_pos s (by decide)
  have h2 := (rne_spec n s).2.1
  by_contra hlt
  have h3 : (c + 1) * 2 ^ s ≤ rne n s * 2 ^ s := Nat.mul_le_mul_right _ (by omega)
  have e : (c + 1) * 2 ^ s = c * 2 ^ s + 2 ^ s := by ring
  generalize 2 ^ s = P at *
  generalize rne n s * P = t at *
  generalize c * P = u at *
  omega

/-- Every integer up to `2^23` is a finite binary32 magnitude. -/
theorem int_representable {k : Nat} (hk : k ≤ 8388608) :
    ∃ m, m < 2139095040 ∧ magnitude m = k * 2 ^ 149 := by
  by_cases h0 : k = 0
  · exact ⟨0, by omega, by subst h0; simp [magnitude]⟩
  · have hlo : 2 ^ Nat.log 2 k ≤ k := Nat.pow_log_le_self 2 h0
    have hhi : k < 2 ^ (Nat.log 2 k + 1) := Nat.lt_pow_succ_log_self (by decide) k
    generalize Nat.log 2 k = j at hlo hhi
    have hj : j ≤ 23 := by
      by_contra hc
      have : 2 ^ 24 ≤ 2 ^ j := Nat.pow_le_pow_right (by decide) (by omega)
      omega
    have hq : 0 < 2 ^ (23 - j) := Nat.pos_pow_of_pos _ (by decide)
    have e1 : 2 ^ j * 2 ^ (23 - j) = 8388608 := by
      rw [← Nat.pow_add]
      have : j + (23 - j) = 23 := by omega
      rw [this]
    have e2 : 2 ^ (j + 1) * 2 ^ (23 - j) = 16777216 := by
      rw [← Nat.pow_add]
      have : j + 1 + (23 - j) = 24 := by omega
      rw [this]
    have b1 : 8388608 ≤ k * 2 ^ (23 - j) := by
      rw [← e1]
      exact Nat.mul_le_mul_right _ hlo
    have b2 : k * 2 ^ (23 - j) < 16777216 := by
      rw [← e2]
      exact Nat.mul_lt_mul_of_pos_right hhi hq
    refine ⟨(j + 127) * 8388608 + (k * 2 ^ (23 - j) - 8388608), by omega, ?_⟩
    have d1 : ((j + 127) * 8388608 + (k * 2 ^ (23 - j) - 8388608)) / 8388608 = j + 127 := by
      omega
    have d2 : ((j + 127) * 8388608 + (k * 2 ^ (23 - j) - 8388608)) % 8388608
        = k * 2 ^ (23 - j) - 8388608 := by
      omega
    unfold magnitude
    rw [d1, d2, if_neg (by omega)]
    have d3 : 8388608 + (k * 2 ^ (23 - j) - 8388608) = k * 2 ^ (23 - j) := by omega
    have d4 : j + 127 - 1 = j + 126 := by omega
    rw [d3, d4, Nat.mul_assoc, ← Nat.pow_add]
    have d5 : 23 - j + (j + 126) = 149 := by omega
    rw [d5]

/-- The integer nearest to a finite binary32 magnitude is a finite
binary32 magnitude. -/
theorem rint_representable {m : Nat} (hm : m < 2139095040) :
    ∃ r, r < 2139095040 ∧ magnitude r = rne (magnitude m) 149 * 2 ^ 149 := by
  by_cases hE : m / 8388608 < 150
  · apply int_representable
    apply rne_mono_bound
    unfold magnitude
    split
    · have : m % 8388608 < 8388608 := Nat.mod_lt _ (by decide)
      have : 0 < 2 ^ 149 := Nat.pos_pow_of_pos _ (by decide)
      nlinarith
    · have h1 : 8388608 + m % 8388608 < 16777216 := by omega
      have h2 : 2 ^ (m / 8388608 - 1) ≤ 2 ^ 148 :=
        Nat.pow_le_pow_right (by decide) (by omega)
      have h3 : 0 < 2 ^ (m / 8388608 - 1) := Nat.pos_pow_of_pos _ (by decide)
      calc (8388608 + m % 8388608) * 2 ^ (m / 8388608 - 1)
          < 16777216 * 2 ^ (m / 8388608 - 1) := Nat.mul_lt_mul_of_pos_right h1 h3
        _ ≤ 16777216 * 2 ^ 148 := Nat.mul_le_mul_left _ h2
        _ = 8388608 * 2 ^ 149 := by norm_num
  · refine ⟨m, hm, ?_⟩
    have hm2 : magnitude m =
        ((8388608 + m % 8388608) * 2 ^ (m / 8388608 - 150)) * 2 ^ 149 := by
      unfold magnitude
      rw [if_neg (by omega), Nat.mul_assoc, ← Nat.pow_add]
      have : m / 8388608 - 150 + 149 = m / 8388608 - 1 := by omega
      rw [this]
    rw [hm2, rne_mul_pow]

theorem isFinite_iff (x : float) : isFinite x = true ↔ magBits x < 2139095040 := by
  unfold isFinite
  simp

theorem rintf_finite {x : float} (hx : isFinite x = true) :
    rintf x = ofBits (signPart x + roundBits (rne (magnitude (magBits x)) 149 * 2 ^ 149)) := by
  unfold rintf
  rw [finite_not_nan hx, finite_not_inf hx]
  simp

/-- What `rintf` does to a finite lane: the result is finite, has the sign
of the operand, and its magnitude is the nearest integer. -/
theorem rintf_finite_spec {x : float} (hx : isFinite x = true) :
    isFinite (rintf x) = true ∧ signBit (rintf x) = signBit x ∧
      magnitude (magBits (rintf x)) = rne (magnitude (magBits x)) 149 * 2 ^ 149 := by
  obtain ⟨r, hr, hmag⟩ := rint_representable ((isFinite_iff x).mp hx)
  have hrb : roundBits (rne (magnitude (magBits x)) 149 * 2 ^ 149) = r := by
    rw [← hmag]
    exact roundBits_magnitude (by omega)
  rw [rintf_finite hx, hrb]
  have hr2 : r < 2147483648 := by omega
  refine ⟨?_, signBit_signPart x hr2, ?_⟩
  · rw [isFinite_iff, magBits_signPart x hr2]
    exact hr
  · rw [magBits_signPart x hr2]
    exact hmag

theorem signPart_congr {x y : float} (h : signBit x = signBit y) : signPart x = signPart y := by
  unfold signPart
  rw [h]

theorem rintf_idem (x : float) : rintf (rintf x) = rintf x := by
  by_cases hn : isNaN x = true
  · have h1 : rintf x = quiet x := by
      unfold rintf
      rw [if_pos hn]
    rw [h1]
    unfold rintf
    rw [if_pos (isNaN_quiet hn)]
    exact quiet_quiet x
  · by_cases hi : isInf x = true
    · have h1 : rintf x = x := by
        unfold rintf
        rw [if_neg hn, if_pos hi]
      rw [h1, h1]
    · have hx : isFinite x = true := finite_of_not (by simpa using hn) (by simpa using hi)
      obtain ⟨hf, hs, hmag⟩ := rintf_finite_spec hx
      rw [rintf_finite hf, hmag, rne_mul_pow, signPart_congr hs, ← rintf_finite hx]

theorem rintf_not_nan {x : float} (h : isNaN x = false) : isNaN (rintf x) = false := by
  by_cases hi : isInf x = true
  · have h1 : rintf x = x := by
      unfold rintf
      rw [h, if_pos hi]
      simp
    rw [h1]
    exact h
  · have hx : isFinite x = true := finite_of_not h (by simpa using hi)
    exact finite_not_nan (rintf_finite_spec hx).1

theorem rintf_nan {x : float} (h : isNaN x = true) : isNaN (rintf x) = true := by
  unfold rintf
  rw [if_pos h]
  exact isNaN_quiet h

theorem rintf_inf {x : float} (h : isInf x = true) : rintf x = x := by
  have hn : isNaN x = false := by
    unfold isInf at h
    unfold isNaN
    simp only [decide_eq_true_eq] at h
    simp only [decide_eq_false_iff_not]
    omega
  unfold rintf
  rw [hn, if_pos h]
  simp

/-! ## Values as rational numbers -/

theorem toRat_int {x : float} {c : Int} (h : toInt x = c * 2 ^ 149) : toRat x = c := by
  unfold toRat
  rw [h, Int.cast_mul]
  have hp : (((2 : Int) ^ 149 : Int) : ℚ) ≠ 0 := by
    rw [Int.cast_pow]
    exact pow_ne_zero 149 (by norm_num)
  rw [Int.cast_pow] at hp ⊢
  exact mul_div_cancel_right₀ _ hp

theorem toRat_half_int {x : float} {c : Int} (h : toInt x = c * 2 ^ 148) :
    toRat x = (c : ℚ) / 2 := by
  have hp : ((2 : ℚ) ^ 148) ≠ 0 := pow_ne_zero 148 (by norm_num)
  have e : ((2 : ℚ) ^ 149) = 2 * 2 ^ 148 := pow_succ' 2 148
  unfold toRat
  rw [h, Int.cast_mul, Int.cast_pow, e, Int.cast_ofNat]
  exact mul_div_mul_right _ _ hp

theorem nearest_rat_aux {n k P : ℚ} (hP : 0 < P)
    (q1 : 2 * n ≤ 2 * (k * P) + P) (q2 : 2 * (k * P) ≤ 2 * n + P) :
    |n / P - k| ≤ 1 / 2 ∧
    (|n / P - k| = 1 / 2 → (2 * n = 2 * (k * P) + P ∨ 2 * (k * P) = 2 * n + P)) := by
  have e : n / P - k = (n - k * P) / P := by
    field_simp
    ring
  rw [e, abs_div, abs_of_pos hP]
  constructor
  · rw [div_le_iff₀ hP, abs_le]
    constructor <;> linarith
  · intro h
    rw [div_eq_iff (ne_of_gt hP)] at h
    rcases abs_cases (n - k * P) with ⟨ha, _⟩ | ⟨ha, _⟩
    · left
      linarith
    · right
      linarith

theorem nearest_rat {n k : Nat}
    (h1 : 2 * n ≤ 2 * (k * 2 ^ 149) + 2 ^ 149) (h2 : 2 * (k * 2 ^ 149) ≤ 2 * n + 2 ^ 149) :
    |(n : ℚ) / 2 ^ 149 - k| ≤ 1 / 2 ∧
    (|(n : ℚ) / 2 ^ 149 - k| = 1 / 2 →
      (2 * n = 2 * (k * 2 ^ 149) + 2 ^ 149 ∨ 2 * (k * 2 ^ 149) = 2 * n + 2 ^ 149)) := by
  have hP : (0 : ℚ) < 2 ^ 149 := by positivity
  have q1 : (2 : ℚ) * n ≤ 2 * (k * 2 ^ 149) + 2 ^ 149 := by exact_mod_cast h1
  have q2 : (2 : ℚ) * (k * 2 ^ 149) ≤ 2 * n + 2 ^ 149 := by exact_mod_cast h2
  obtain ⟨r1, r2⟩ := nearest_rat_aux hP q1 q2
  refine ⟨r1, fun h => ?_⟩
  rcases r2 h with h3 | h3
  · left
    exact_mod_cast h3
  · right
    exact_mod_cast h3

/-- The value of `rintf x` for a finite `x` is an integer within one half
of the value of `x`, the even one when the value of `x` lies half way
between two integers. -/
theorem rintf_value {x : float} (hx : isFinite x = true) :
    ∃ z : Int, toRat (rintf x) = z ∧ |toRat x - z| ≤ 1 / 2 ∧
      (|toRat x - z| = 1 / 2 → Even z) := by
  obtain ⟨_, hs, hmag⟩ := rintf_finite_spec hx
  obtain ⟨h1, h2, h3⟩ := rne_spec (magnitude (magBits x)) 149
  obtain ⟨r1, r2⟩ := nearest_rat h1 h2
  have hev : |(magnitude (magBits x) : ℚ) / 2 ^ 149 - (rne (magnitude (magBits x)) 149 : ℚ)|
      = 1 / 2 → Even (rne (magnitude (magBits x)) 149) :=
    fun h => Nat.even_iff.mpr (h3 (r2 h))
  generalize rne (magnitude (magBits x)) 149 = k at hmag r1 hev
  by_cases sx : signBit x = true
  · have ti : toInt (rintf x) = ((-(k : Int)) : Int) * 2 ^ 149 := by
      unfold toInt
      rw [hs, if_pos sx, hmag]
      push_cast
      ring
    have tx : toRat x = -((magnitude (magBits x) : ℚ) / 2 ^ 149) := by
      unfold toRat toInt
      rw [if_pos sx]
      push_cast
      ring
    refine ⟨-(k : Int), toRat_int ti, ?_, ?_⟩
    · rw [tx]
      push_cast
      rw [← neg_add', abs_neg, ← sub_eq_add_neg]
      exact r1
    · rw [tx]
      push_cast
      rw [← neg_add', abs_neg, ← sub_eq_add_neg]
      intro h
      exact (Int.even_coe_nat k).mpr (hev h) |>.neg
  · have ti : toInt (rintf x) = (k : Int) * 2 ^ 149 := by
      unfold toInt
      rw [hs, if_neg sx, hmag]
      push_cast
      ring
    have tx : toRat x = (magnitude (magBits x) : ℚ) / 2 ^ 149 := by
      unfold toRat toInt
      rw [if_neg sx]
      push_cast
      ring
    refine ⟨(k : Int), toRat_int ti, ?_, ?_⟩
    · rw [tx]
      exact_mod_cast r1
    · rw [tx]
      intro h
      exact (Int.even_coe_nat k).mpr (hev (by exact_mod_cast h))

/-! ## Lanewise form of the vector predicates -/

theorem float2_equal_lanes (a b : vector_float2) :
    float2_equal a b = true ↔ ∀ i, feq (a.lane i) (b.lane i) = true :=
  (float2_equal_iff a b).trans (forall_lanes2 a b (fun p q => feq p q = true)).symm

theorem float4_equal_lanes (a b : vector_float4) :
    float4_equal a b = true ↔ ∀ i, feq (a.lane i) (b.lane i) = true :=
  (float4_equal_iff a b).trans (forall_lanes4 a b (fun p q => feq p q = true)).symm

theorem float2_nearly_equal_lanes (a b : vector_float2) :
    float2_nearly_equal a b = true ↔
      ∀ i, flt (fabs (fsub (a.lane i) (b.lane i))) FLT_EPSILON = true :=
  (float2_nearly_equal_iff a b).trans
    (forall_lanes2 a b (fun p q => flt (fabs (fsub p q)) FLT_EPSILON = true)).symm

theorem float4_nearly_equal_lanes (a b : vector_float4) :
    float4_nearly_equal a b = true ↔
      ∀ i, flt (fabs (fsub (a.lane i) (b.lane i))) FLT_EPSILON = true :=
  (float4_nearly_equal_iff a b).trans
    (forall_lanes4 a b (fun p q => flt (fabs (fsub p q)) FLT_EPSILON = true)).symm

theorem lane_setLane2 (v : vector_float2) (i : Fin 2) (c : float) :
    (v.setLane i c).lane i = c := by
  unfold vector_float2.setLane vector_float2.lane
  split <;> simp_all

theorem lane_setLane4 (v : vector_float4) (i : Fin 4) (c : float) :
    (v.setLane i c).lane i = c := by
  unfold vector_float4.setLane vector_float4.lane
  split_ifs <;> simp_all

theorem rint_float2_lane (v : vector_float2) (i : Fin 2) :
    (rint_float2 v).lane i = rintf (v.lane i) := by
  unfold rint_float2 V2.rint vector_float2.lane
  split <;> rfl

theorem rint_float4_lane (v : vector_float4) (i : Fin 4) :
    (rint_float4 v).lane i = rintf (v.lane i) := by
  unfold rint_float4 V4.rint vector_float4.lane
  split_ifs <;> rfl

/-! ## Differences of finite lanes -/

theorem isNaN_of_magBits_le {x : float} (h : magBits x ≤ 2139095040) : isNaN x = false := by
  unfold isNaN
  simp only [decide_eq_false_iff_not]
  omega

theorem fsub_eq_zero_mag {a b : float} (ha : isFinite a = true) (hb : isFinite b = true)
    (h : toInt a = toInt b) : magBits (fsub a b) = 0 := by
  rw [fsub_finite ha hb]
  apply magBits_addFinite_zero
  rw [toInt_fneg, h]
  omega

/-- Lanes that compare equal and are finite pass the tolerance test. -/
theorem near_of_feq {a b : float} (ha : isFinite a = true) (hb : isFinite b = true)
    (h : feq a b = true) : flt (fabs (fsub a b)) FLT_EPSILON = true := by
  have ht : toInt a = toInt b := by
    unfold feq at h
    simp only [Bool.and_eq_true, decide_eq_true_eq] at h
    exact h.2
  have hz := fsub_eq_zero_mag ha hb ht
  rw [near_iff, hz]
  refine ⟨isNaN_of_magBits_le (by omega), ?_⟩
  have : magnitude 0 = 0 := by decide
  rw [this]
  exact Nat.pos_pow_of_pos _ (by decide)

/-- A difference of finite lanes whose exact value has magnitude `2^-23`
is computed exactly. -/
theorem fsub_eps_mag {a b : float} (ha : isFinite a = true) (hb : isFinite b = true)
    (h : (toInt a - toInt b).natAbs = 2 ^ 126) : magBits (fsub a b) = 872415232 := by
  have e : toInt a + toInt (fneg b) = toInt a - toInt b := by
    rw [toInt_fneg]
    omega
  have hp : 0 < 2 ^ 126 := Nat.pos_pow_of_pos _ (by decide)
  have hne : toInt a + toInt (fneg b) ≠ 0 := by
    rw [e]
    intro hc
    rw [hc] at h
    simp only [Int.natAbs_zero] at h
    omega
  rw [fsub_finite ha hb, magBits_addFinite hne, e, h]
  exact roundBits_eps

theorem magnitude_eps : magnitude 872415232 = 2 ^ 126 := by
  have h : (2 : Nat) ^ 126 = 85070591730234615865843651857942052864 := by norm_num
  rw [h]
  decide

theorem near_false_of_mag {d : float} (h : magBits d = 872415232) :
    flt (fabs d) FLT_EPSILON = false := by
  rw [Bool.eq_false_iff]
  intro hc
  rw [near_iff, h, magnitude_eps] at hc
  omega

theorem natAbs_of_rat_eps {s : Int} (h : |(s : ℚ) / 2 ^ 149| = 1 / 2 ^ 23) :
    s.natAbs = 2 ^ 126 := by
  have hP : (0 : ℚ) < 2 ^ 149 := by positivity
  rw [abs_div, abs_of_pos hP, div_eq_iff (ne_of_gt hP)] at h
  have e : (1 : ℚ) / 2 ^ 23 * 2 ^ 149 = 2 ^ 126 := by
    rw [show (149 : Nat) = 126 + 23 from rfl, pow_add]
    field_simp
  rw [e] at h
  have h2 : |s| = 2 ^ 126 := by exact_mod_cast h
  have h3 : ((s.natAbs : Nat) : Int) = ((2 ^ 126 : Nat) : Int) := by
    rw [Int.natCast_natAbs, h2]
    push_cast
  exact Int.ofNat_inj.mp h3

theorem toRat_sub (a b : float) :
    toRat a - toRat b = ((toInt a - toInt b : Int) : ℚ) / 2 ^ 149 := by
  unfold toRat
  push_cast
  ring

/-- Finite lanes whose values differ by exactly `2^-23` fail the tolerance test. -/
theorem near_false_of_exact {a b : float} (ha : isFinite a = true) (hb : isFinite b = true)
    (h : |toRat a - toRat b| = toRat FLT_EPSILON) :
    flt (fabs (fsub a b)) FLT_EPSILON = false := by
  rw [toRat_sub, toRat_eps] at h
  exact near_false_of_mag (fsub_eps_mag ha hb (natAbs_of_rat_eps h))

theorem near_false_of_computed {d : float} (h : |toRat d| = toRat FLT_EPSILON) :
    flt (fabs d) FLT_EPSILON = false := by
  rw [Bool.eq_false_iff]
  intro hc
  rw [near_iff_rat] at hc
  have := hc.2
  rw [h] at this
  exact lt_irrefl _ this

/-! ## Adding the tolerance to a lane between 1 and 2 -/

theorem toRat_neg_iff (x : float) : toRat x < 0 ↔ toInt x < 0 := by
  unfold toRat
  have hP : (0 : ℚ) < 2 ^ 149 := by positivity
  rw [div_neg_iff]
  constructor
  · rintro (⟨_, h⟩ | ⟨h, _⟩)
    · exact absurd hP (not_lt.mpr (le_of_lt h))
    · exact_mod_cast h
  · intro h
    right
    exact ⟨by exact_mod_cast h, hP⟩

theorem magnitude_unit_succ {m : Nat} (h1 : 1065353216 ≤ m) (h2 : m ≤ 1073741823) :
    magnitude (m + 1) = magnitude m + 2 ^ 126 := by
  unfold magnitude
  have e1 : m / 8388608 = 127 := by omega
  have p126 : (2 : Nat) ^ 126 = 85070591730234615865843651857942052864 := by norm_num
  have p127 : (2 : Nat) ^ 127 = 170141183460469231731687303715884105728 := by norm_num
  by_cases hc : m = 1073741823
  · subst hc
    rw [p126]
    decide
  · have e2 : (m + 1) / 8388608 = 127 := by omega
    have e3 : (m + 1) % 8388608 = m % 8388608 + 1 := by omega
    rw [e1, e2, e3, if_neg (by decide), if_neg (by decide)]
    ring

theorem fadd_eps_unit {x : float} (h1 : 1065353216 ≤ x.bits) (h2 : x.bits ≤ 1073741823) :
    isFinite x = true ∧ isFinite (fadd x FLT_EPSILON) = true ∧
      toRat (fadd x FLT_EPSILON) = toRat x + toRat FLT_EPSILON := by
  have hm : magBits x = x.bits := by
    unfold magBits
    omega
  have hs : signBit x = false := by
    unfold signBit
    simp only [decide_eq_false_iff_not]
    omega
  have hx : isFinite x = true := by
    rw [isFinite_iff, hm]
    omega
  have he : isFinite FLT_EPSILON = true := by decide
  have tx : toInt x = (magnitude x.bits : Int) := by
    unfold toInt
    rw [hs, hm]
    simp
  have hsum : (toInt x + toInt FLT_EPSILON).natAbs = magnitude (x.bits + 1) := by
    rw [magnitude_unit_succ h1 h2, tx, toInt_eps]
    have : ((magnitude x.bits : Int) + 2 ^ 126) = ((magnitude x.bits + 2 ^ 126 : Nat) : Int) := by
      push_cast
      rfl
    rw [this, Int.natAbs_ofNat]
  have hne : toInt x + toInt FLT_EPSILON ≠ 0 := by
    intro hc
    rw [hc] at hsum
    have hp : 0 < 2 ^ 126 := Nat.pos_pow_of_pos _ (by decide)
    rw [magnitude_unit_succ h1 h2] at hsum
    simp only [Int.natAbs_zero] at hsum
    omega
  have hexact := toInt_addFinite_exact (m := x.bits + 1) (by omega) hsum
  refine ⟨hx, ?_, ?_⟩
  · rw [fadd_finite hx he, isFinite_iff, magBits_addFinite hne, hsum,
      roundBits_magnitude (by omega)]
    omega
  · rw [fadd_finite hx he]
    unfold toRat
    rw [hexact]
    push_cast
    ring

theorem near_false_of_step {x y : float} (hx : isFinite x = true) (hy : isFinite y = true)
    (h : toRat y = toRat x + toRat FLT_EPSILON) :
    flt (fabs (fsub x y)) FLT_EPSILON = false := by
  apply near_false_of_exact hx hy
  rw [h]
  have hpos : 0 < toRat FLT_EPSILON := by
    rw [toRat_eps]
    positivity
  rw [show toRat x - (toRat x + toRat FLT_EPSILON) = -toRat FLT_EPSILON by ring, abs_neg,
    abs_of_pos hpos]

/-! ## The rounded difference against the tolerance -/

theorem dropBits_spec {n : Nat} (h1 : 16777216 ≤ n) (h2 : n < 2 ^ 255 * 8388608) :
    1 ≤ dropBits n ∧ dropBits n ≤ 254 ∧ 2 ^ dropBits n * 8388608 ≤ n ∧
      n < 2 ^ (dropBits n + 1) * 8388608 := by
  have hP1 : 2 ^ 1 * 8388608 ≤ n := by omega
  have hle : dropBits n ≤ 254 := Nat.findGreatest_le 254
  have hge : 1 ≤ dropBits n :=
    Nat.le_findGreatest (P := fun s => 2 ^ s * 8388608 ≤ n) (by omega) hP1
  have hsp : 2 ^ dropBits n * 8388608 ≤ n :=
    Nat.findGreatest_spec (P := fun s => 2 ^ s * 8388608 ≤ n) (by omega : 1 ≤ 254) hP1
  refine ⟨hge, hle, hsp, ?_⟩
  by_cases hs : dropBits n = 254
  · rw [hs]
    exact h2
  · have hlt : dropBits n < dropBits n + 1 := Nat.lt_succ_self _
    have := Nat.findGreatest_is_greatest (P := fun s => 2 ^ s * 8388608 ≤ n) hlt (by omega)
    simpa using this

theorem rne_bounds {n s : Nat} (h1 : 2 ^ s * 8388608 ≤ n) (h2 : n < 2 ^ (s + 1) * 8388608) :
    8388608 ≤ rne n s ∧ rne n s ≤ 16777216 := by
  have hp : 0 < 2 ^ s := Nat.pos_pow_of_pos s (by decide)
  constructor
  · have hq : 8388608 ≤ n / 2 ^ s := by
      rw [Nat.le_div_iff_mul_le hp, Nat.mul_comm]
      exact h1
    unfold rne
    split <;> omega
  · apply rne_mono_bound
    rw [Nat.pow_succ] at h2
    omega

theorem magnitude_pack {s k : Nat} (h1 : 8388608 ≤ k) (h2 : k ≤ 16777216) :
    magnitude (s * 8388608 + k) = k * 2 ^ s := by
  unfold magnitude
  by_cases hk : k = 16777216
  · subst hk
    have d1 : (s * 8388608 + 16777216) / 8388608 = s + 2 := by omega
    have d2 : (s * 8388608 + 16777216) % 8388608 = 0 := by omega
    rw [d1, d2, if_neg (by omega)]
    have d3 : s + 2 - 1 = s + 1 := by omega
    rw [d3, Nat.pow_succ]
    omega
  · have d1 : (s * 8388608 + k) / 8388608 = s + 1 := by omega
    have d2 : (s * 8388608 + k) % 8388608 = k - 8388608 := by omega
    rw [d1, d2, if_neg (by omega)]
    have d3 : s + 1 - 1 = s := by omega
    have d4 : 8388608 + (k - 8388608) = k := by omega
    rw [d3, d4]

theorem roundBits_small {n : Nat} (h : n < 16777216) :
    roundBits n = n ∧ magnitude n = n := by
  constructor
  · unfold roundBits
    rw [dropBits_small h, rne_zero]
    omega
  · unfold magnitude
    by_cases hE : n / 8388608 = 0
    · rw [if_pos hE]
      omega
    · rw [if_neg hE]
      have : n / 8388608 = 1 := by omega
      rw [this]
      omega

theorem magnitude_inf_ge : 2 ^ 126 ≤ magnitude 2139095040 := by
  have h : magnitude 2139095040 =
      242833611528216133864932738352939863330300854881517440156476551217363035650651062272 := by
    decide
  have p126 : (2 : Nat) ^ 126 = 85070591730234615865843651857942052864 := by norm_num
  rw [h, p126]
  omega

/-- The rounded magnitude is below `2^-23` exactly when the magnitude is
below the midpoint `2^-23 - 2^-48` of `2^-23` and its predecessor. -/
theorem round_lt_eps_iff {n : Nat} (hn : n < 2 ^ 255 * 8388608) :
    magnitude (roundBits n) < 2 ^ 126 ↔ n < 2 ^ 126 - 2 ^ 101 := by
  have p126 : (2 : Nat) ^ 126 = 85070591730234615865843651857942052864 := by norm_num
  have p101 : (2 : Nat) ^ 101 = 2535301200456458802993406410752 := by norm_num
  by_cases hsmall : n < 16777216
  · obtain ⟨e1, e2⟩ := roundBits_small hsmall
    rw [e1, e2, p126, p101]
    omega
  · obtain ⟨s1, s2, s3, s4⟩ := dropBits_spec (by omega) hn
    obtain ⟨k1, k2⟩ := rne_bounds s3 s4
    obtain ⟨r1, r2, r3⟩ := rne_spec n (dropBits n)
    have hpack := magnitude_pack (s := dropBits n) k1 k2
    unfold roundBits
    generalize dropBits n = s at *
    generalize rne n s = k at *
    by_cases hov : s * 8388608 + k ≤ 2139095040
    · rw [Nat.min_eq_left hov, hpack]
      rcases Nat.lt_trichotomy s 102 with hs | hs | hs
      · have q1 : 2 ^ s ≤ 2 ^ 101 := Nat.pow_le_pow_right (by decide) (by omega)
        have q2 : 2 ^ (s + 1) ≤ 2 ^ 102 := Nat.pow_le_pow_right (by decide) (by omega)
        have q3 : k * 2 ^ s ≤ 16777216 * 2 ^ 101 := Nat.mul_le_mul k2 q1
        have q4 : 2 ^ (s + 1) * 8388608 ≤ 2 ^ 102 * 8388608 := Nat.mul_le_mul_right _ q2
        have p102 : (2 : Nat) ^ 102 = 5070602400912917605986812821504 := by norm_num
        rw [p101] at q3
        rw [p102] at q4
        rw [p126, p101]
        omega
      · subst hs
        have p102 : (2 : Nat) ^ 102 = 5070602400912917605986812821504 := by norm_num
        rw [p102] at r1 r2 r3 ⊢
        rw [p126, p101]
        omega
      · have q1 : 2 ^ 103 ≤ 2 ^ s := Nat.pow_le_pow_right (by decide) (by omega)
        have q3 : 8388608 * 2 ^ 103 ≤ k * 2 ^ s := Nat.mul_le_mul k1 q1
        have q4 : 2 ^ 103 * 8388608 ≤ 2 ^ s * 8388608 := Nat.mul_le_mul_right _ q1
        have p103 : (2 : Nat) ^ 103 = 10141204801825835211973625643008 := by norm_num
        rw [p103] at q3 q4
        rw [p126, p101]
        omega
    · rw [Nat.min_eq_right (by omega)]
      have hinf := magnitude_inf_ge
      have hs : 253 ≤ s := by omega
      have q1 : 2 ^ 253 ≤ 2 ^ s := Nat.pow_le_pow_right (by decide) hs
      have q4 : 2 ^ 253 * 8388608 ≤ 2 ^ s * 8388608 := Nat.mul_le_mul_right _ q1
      have p253 : (2 : Nat) ^ 253 =
          14474011154664524427946373126085988481658748083205070504932198000989141204992 := by
        norm_num
      rw [p253] at q4
      rw [p126] at hinf
      rw [p126, p101]
      omega

theorem magnitude_finite_lt {m : Nat} (h : m < 2139095040) :
    magnitude m < 2 ^ 254 * 8388608 := by
  have hp : 0 < 2 ^ 254 := Nat.pos_pow_of_pos _ (by decide)
  unfold magnitude
  split
  · have : m % 8388608 < 8388608 := Nat.mod_lt _ (by decide)
    nlinarith
  · have h1 : 8388608 + m % 8388608 < 16777216 := by omega
    have h2 : 2 ^ (m / 8388608 - 1) ≤ 2 ^ 253 :=
      Nat.pow_le_pow_right (by decide) (by omega)
    have h3 : 0 < 2 ^ (m / 8388608 - 1) := Nat.pos_pow_of_pos _ (by decide)
    calc (8388608 + m % 8388608) * 2 ^ (m / 8388608 - 1)
        < 16777216 * 2 ^ (m / 8388608 - 1) := Nat.mul_lt_mul_of_pos_right h1 h3
      _ ≤ 16777216 * 2 ^ 253 := Nat.mul_le_mul_left _ h2
      _ = 2 ^ 254 * 8388608 := by norm_num

theorem natAbs_toInt (x : float) : (toInt x).natAbs = magnitude (magBits x) := by
  unfold toInt
  split <;> simp

theorem natAbs_sub_lt {a b : float} (ha : isFinite a = true) (hb : isFinite b = true) :
    (toInt a - toInt b).natAbs < 2 ^ 255 * 8388608 := by
  have h1 := magnitude_finite_lt ((isFinite_iff a).mp ha)
  have h2 := magnitude_finite_lt ((isFinite_iff b).mp hb)
  rw [← natAbs_toInt] at h1 h2
  have h3 : (toInt a - toInt b).natAbs ≤ (toInt a).natAbs + (toInt b).natAbs :=
    Int.natAbs_sub_le _ _
  have e : 2 ^ 255 * 8388608 = 2 ^ 254 * 8388608 + 2 ^ 254 * 8388608 := by
    rw [Nat.pow_succ]
    omega
  omega

/-- Finite lanes pass the tolerance test exactly when their values differ
by less than `2^-23 - 2^-48` (counted in units of `2^-149`). -/
theorem near_finite_iff {a b : float} (ha : isFinite a = true) (hb : isFinite b = true) :
    flt (fabs (fsub a b)) FLT_EPSILON = true ↔
      (toInt a - toInt b).natAbs < 2 ^ 126 - 2 ^ 101 := by
  have e : toInt a + toInt (fneg b) = toInt a - toInt b := by
    rw [toInt_fneg]
    omega
  have p126 : (2 : Nat) ^ 126 = 85070591730234615865843651857942052864 := by norm_num
  have p101 : (2 : Nat) ^ 101 = 2535301200456458802993406410752 := by norm_num
  rw [near_iff, fsub_finite ha hb]
  by_cases h0 : toInt a + toInt (fneg b) = 0
  · rw [magBits_addFinite_zero h0]
    have hz : magnitude 0 = 0 := by decide
    have hn : isNaN (addFinite a (fneg b)) = false :=
      isNaN_of_magBits_le (by rw [magBits_addFinite_zero h0]; omega)
    rw [e] at h0
    rw [hz, h0, hn, p126, p101]
    simp
  · have hn : isNaN (addFinite a (fneg b)) = false :=
      isNaN_of_magBits_le (by rw [magBits_addFinite h0]; exact roundBits_le _)
    rw [magBits_addFinite h0, e, hn, round_lt_eps_iff (natAbs_sub_lt ha hb)]
    simp

theorem near_false_of_mag_ge {d : float} (h : 2139095040 ≤ magBits d) :
    flt (fabs d) FLT_EPSILON = false := by
  rw [Bool.eq_false_iff]
  intro hc
  rw [near_iff] at hc
  obtain ⟨h1, h2⟩ := hc
  have h3 := not_nan_le h1
  have h4 : magBits d = 2139095040 := by omega
  rw [h4] at h2
  exact absurd h2 (not_lt.mpr magnitude_inf_ge)

theorem magBits_nan {x : float} (h : isNaN x = true) : 2139095040 ≤ magBits x := by
  unfold isNaN at h
  simp only [decide_eq_true_eq] at h
  omega

theorem magBits_inf {x : float} (h : isInf x = true) : 2139095040 ≤ magBits x := by
  unfold isInf at h
  simp only [decide_eq_true_eq] at h
  omega

theorem not_finite_cases {x : float} (h : isFinite x = false) :
    isNaN x = true ∨ isInf x = true := by
  unfold isFinite at h
  unfold isNaN isInf
  simp only [decide_eq_false_iff_not, decide_eq_true_eq] at *
  omega

/-- A difference with a NaN or infinite operand is NaN or infinite. -/
theorem fsub_not_finite {a b : float} (h : isFinite a = false ∨ isFinite b = false) :
    2139095040 ≤ magBits (fsub a b) := by
  unfold fsub
  by_cases na : isNaN a = true
  · rw [if_pos na]
    exact magBits_nan (isNaN_quiet na)
  · rw [if_neg na]
    by_cases nb : isNaN b = true
    · rw [if_pos nb]
      exact magBits_nan (isNaN_quiet nb)
    · rw [if_neg nb]
      unfold fadd
      rw [if_neg na, isNaN_fneg, if_neg nb, isInf_fneg]
      by_cases ia : isInf a = true
      · rw [if_pos ia]
        split
        · decide
        · exact magBits_inf ia
      · rw [if_neg ia]
        have ib : isInf b = true := by
          rcases h with h | h
          · rcases not_finite_cases h with h | h
            · exact absurd h na
            · exact absurd h ia
          · rcases not_finite_cases h with h | h
            · exact absurd h nb
            · exact h
        rw [if_pos ib, magBits_fneg]
        exact magBits_inf ib

theorem eps_minus_rat : toRat FLT_EPSILON - 1 / 2 ^ 48 = ((2 ^ 126 - 2 ^ 101 : Nat) : ℚ) / 2 ^ 149 := by
  rw [toRat_eps]
  have h1 : (2 : ℚ) ^ 149 = 2 ^ 23 * 2 ^ 126 := by rw [← pow_add]
  have h2 : (2 : ℚ) ^ 126 = 2 ^ 25 * 2 ^ 101 := by rw [← pow_add]
  have h3 : (2 : ℚ) ^ 48 = 2 ^ 23 * 2 ^ 25 := by rw [← pow_add]
  have hle : (2 : Nat) ^ 101 ≤ 2 ^ 126 := Nat.pow_le_pow_right (by decide) (by decide)
  rw [Nat.cast_sub hle, Nat.cast_pow, Nat.cast_pow, Nat.cast_ofNat, h1, h3, h2]
  have a1 : ((2 : ℚ) ^ 23) ≠ 0 := pow_ne_zero _ (by norm_num)
  have a2 : ((2 : ℚ) ^ 25) ≠ 0 := pow_ne_zero _ (by norm_num)
  have a3 : ((2 : ℚ) ^ 101) ≠ 0 := pow_ne_zero _ (by norm_num)
  generalize (2 : ℚ) ^ 23 = x at *
  generalize (2 : ℚ) ^ 25 = y at *
  generalize (2 : ℚ) ^ 101 = z at *
  field_simp
  ring

theorem abs_toRat_sub (a b : float) :
    |toRat a - toRat b| = ((toInt a - toInt b).natAbs : ℚ) / 2 ^ 149 := by
  rw [toRat_sub, abs_div, abs_of_pos (by positivity : (0 : ℚ) < 2 ^ 149)]
  congr 1
  rw [Nat.cast_natAbs, Int.cast_abs]

theorem rat_lt_threshold_iff (a b : float) :
    |toRat a - toRat b| < toRat FLT_EPSILON - 1 / 2 ^ 48 ↔
      (toInt a - toInt b).natAbs < 2 ^ 126 - 2 ^ 101 := by
  rw [abs_toRat_sub, eps_minus_rat,
    div_lt_div_iff_of_pos_right (by positivity : (0 : ℚ) < 2 ^ 149), Nat.cast_lt]

theorem rat_lt_eps_iff (a b : float) :
    |toRat a - toRat b| < toRat FLT_EPSILON ↔ (toInt a - toInt b).natAbs < 2 ^ 126 := by
  have e : toRat FLT_EPSILON = ((2 ^ 126 : Nat) : ℚ) / 2 ^ 149 := by
    rw [toRat_eps, Nat.cast_pow, Nat.cast_ofNat]
    have h1 : (2 : ℚ) ^ 149 = 2 ^ 23 * 2 ^ 126 := by rw [← pow_add]
    rw [h1]
    have a1 : ((2 : ℚ) ^ 23) ≠ 0 := pow_ne_zero _ (by norm_num)
    have a2 : ((2 : ℚ) ^ 126) ≠ 0 := pow_ne_zero _ (by norm_num)
    generalize (2 : ℚ) ^ 23 = x at *
    generalize (2 : ℚ) ^ 126 = y at *
    field_simp
  rw [abs_toRat_sub, e, div_lt_div_iff_of_pos_right (by positivity : (0 : ℚ) < 2 ^ 149), Nat.cast_lt]

/-- The tolerance test on a pair of lanes, in terms of the lanes' values:
both are finite and the values differ by less than `2^-23 - 2^-48`. -/
theorem near_iff_values (a b : float) :
    flt (fabs (fsub a b)) FLT_EPSILON = true ↔
      isFinite a = true ∧ isFinite b = true ∧
        |toRat a - toRat b| < toRat FLT_EPSILON - 1 / 2 ^ 48 := by
  by_cases ha : isFinite a = true
  · by_cases hb : isFinite b = true
    · rw [near_finite_iff ha hb, rat_lt_threshold_iff]
      simp [ha, hb]
    · have hb2 : isFinite b = false := by simpa using hb
      have hf : flt (fabs (fsub a b)) FLT_EPSILON = false :=
        near_false_of_mag_ge (fsub_not_finite (Or.inr hb2))
      rw [hf]
      simp [hb2]
  · have ha2 : isFinite a = false := by simpa using ha
    have hf : flt (fabs (fsub a b)) FLT_EPSILON = false :=
      near_false_of_mag_ge (fsub_not_finite (Or.inl ha2))
    rw [hf]
    simp [ha2]

/-! ## The claims -/

/-- C1, as stated, fails in both directions: `float2_equal` is true on
`[+0.0, +0.0]` and `[-0.0, +0.0]` although lane 0 differs in its bit
pattern, and it is false on `[NaN, +0.0]` against itself although every
lane has the same bit pattern. -/
theorem equal_is_not_bit_exact :
    (float2_equal ⟨zero, zero⟩ ⟨negZero, zero⟩ = true ∧ zero.bits ≠ negZero.bits) ∧
    (float2_equal ⟨qNaN, zero⟩ ⟨qNaN, zero⟩ = false ∧
      ∀ i, ((⟨qNaN, zero⟩ : vector_float2).lane i).bits
        = ((⟨qNaN, zero⟩ : vector_float2).lane i).bits) := by
  refine ⟨⟨by decide, by decide⟩, by decide, fun _ => rfl⟩

/-- C1, amended: `float2_equal` and `float4_equal` are true exactly when
every pair of corresponding lanes is equal as IEEE-754 values: neither
lane is NaN, and the two lanes have the same bit pattern or are both zeros
(of either sign). -/
theorem equal_iff_lanes_ieee_equal :
    (∀ a b : vector_float2, float2_equal a b = true ↔
      ∀ i, isNaN (a.lane i) = false ∧ isNaN (b.lane i) = false ∧
        ((a.lane i).bits = (b.lane i).bits ∨
          (magBits (a.lane i) = 0 ∧ magBits (b.lane i) = 0))) ∧
    (∀ a b : vector_float4, float4_equal a b = true ↔
      ∀ i, isNaN (a.lane i) = false ∧ isNaN (b.lane i) = false ∧
        ((a.lane i).bits = (b.lane i).bits ∨
          (magBits (a.lane i) = 0 ∧ magBits (b.lane i) = 0))) := by
  constructor
  · intro a b
    rw [float2_equal_lanes]
    exact forall_congr' fun i => feq_iff _ _
  · intro a b
    rw [float4_equal_lanes]
    exact forall_congr' fun i => feq_iff _ _

/-- C2, as stated, fails: for `a = [2^-23, 0.0]` and `b = [2^-149, 0.0]`
all lanes are finite and every lane difference `|a[i] - b[i]|` is strictly
below `FLT_EPSILON` (lane 0 differs by `2^-23 - 2^-149`), but the
single-precision difference of lane 0 rounds to `2^-23` itself and
`float2_nearly_equal a b` is false. -/
theorem nearly_equal_false_below_epsilon :
    (∀ i, isFinite ((⟨FLT_EPSILON, zero⟩ : vector_float2).lane i) = true ∧
      isFinite ((⟨minSubnormal, zero⟩ : vector_float2).lane i) = true ∧
      |toRat ((⟨FLT_EPSILON, zero⟩ : vector_float2).lane i)
        - toRat ((⟨minSubnormal, zero⟩ : vector_float2).lane i)| < toRat FLT_EPSILON) ∧
    fsub FLT_EPSILON minSubnormal = FLT_EPSILON ∧
    float2_nearly_equal ⟨FLT_EPSILON, zero⟩ ⟨minSubnormal, zero⟩ = false := by
  have p126 : (2 : Nat) ^ 126 = 85070591730234615865843651857942052864 := by norm_num
  refine ⟨?_, by decide, by decide⟩
  rw [Fin.forall_fin_two]
  refine ⟨⟨by decide, by decide, ?_⟩, ⟨by decide, by decide, ?_⟩⟩
  · show |toRat FLT_EPSILON - toRat minSubnormal| < toRat FLT_EPSILON
    rw [rat_lt_eps_iff, p126]
    decide
  · show |toRat zero - toRat zero| < toRat FLT_EPSILON
    rw [rat_lt_eps_iff, p126]
    decide

/-- C2, amended: `float2_nearly_equal` and `float4_nearly_equal` are true
exactly when, in every lane, the single-precision difference `a[i] - b[i]`
(the difference of the lanes' values rounded to the nearest
single-precision value, ties to even) is a number of absolute value
strictly below `FLT_EPSILON`; in terms of the lanes' values, exactly when
both lanes are finite and `|a[i] - b[i]| < 2^-23 - 2^-48`.  The tolerance
is the constant `2^-23` (pattern `0x34000000`), the functions take no
tolerance argument, and a lane whose difference has absolute value exactly
`FLT_EPSILON` makes the result false, whether that is the single-precision
difference or the difference of the values of two finite lanes. -/
theorem nearly_equal_iff_rounded_difference_below_epsilon :
    (∀ a b : vector_float2, float2_nearly_equal a b = true ↔
      ∀ i, isFinite (a.lane i) = true ∧ isFinite (b.lane i) = true ∧
        |toRat (a.lane i) - toRat (b.lane i)| < toRat FLT_EPSILON - 1 / 2 ^ 48) ∧
    (∀ a b : vector_float4, float4_nearly_equal a b = true ↔
      ∀ i, isFinite (a.lane i) = true ∧ isFinite (b.lane i) = true ∧
        |toRat (a.lane i) - toRat (b.lane i)| < toRat FLT_EPSILON - 1 / 2 ^ 48) ∧
    (∀ a b : vector_float2, float2_nearly_equal a b = true ↔
      ∀ i, isNaN (fsub (a.lane i) (b.lane i)) = false ∧
        |toRat (fsub (a.lane i) (b.lane i))| < toRat FLT_EPSILON) ∧
    (∀ a b : vector_float4, float4_nearly_equal a b = true ↔
      ∀ i, isNaN (fsub (a.lane i) (b.lane i)) = false ∧
        |toRat (fsub (a.lane i) (b.lane i))| < toRat FLT_EPSILON) ∧
    (FLT_EPSILON.bits = 872415232 ∧ toRat FLT_EPSILON = 1 / 2 ^ 23) ∧
    (∀ (a b : vector_float2) (i : Fin 2),
      isFinite (a.lane i) = true → isFinite (b.lane i) = true →
      |toRat (a.lane i) - toRat (b.lane i)| = toRat FLT_EPSILON →
        float2_nearly_equal a b = false) ∧
    (∀ (a b : vector_float4) (i : Fin 4),
      isFinite (a.lane i) = true → isFinite (b.lane i) = true →
      |toRat (a.lane i) - toRat (b.lane i)| = toRat FLT_EPSILON →
        float4_nearly_equal a b = false) ∧
    (∀ (a b : vector_float2) (i : Fin 2),
      |toRat (fsub (a.lane i) (b.lane i))| = toRat FLT_EPSILON →
        float2_nearly_equal a b = false) ∧
    (∀ (a b : vector_float4) (i : Fin 4),
      |toRat (fsub (a.lane i) (b.lane i))| = toRat FLT_EPSILON →
        float4_nearly_equal a b = false) := by
  refine ⟨?_, ?_, ?_, ?_, ⟨by decide, toRat_eps⟩, ?_, ?_, ?_, ?_⟩
  · intro a b
    rw [float2_nearly_equal_lanes]
    exact forall_congr' fun i => near_iff_values _ _
  · intro a b
    rw [float4_nearly_equal_lanes]
    exact forall_congr' fun i => near_iff_values _ _
  · intro a b
    rw [float2_nearly_equal_lanes]
    exact forall_congr' fun i => near_iff_rat _
  · intro a b
    rw [float4_nearly_equal_lanes]
    exact forall_congr' fun i => near_iff_rat _
  · intro a b i ha hb h
    rw [Bool.eq_false_iff]
    intro hc
    have h1 := (float2_nearly_equal_lanes a b).mp hc i
    rw [near_false_of_exact ha hb h] at h1
    exact Bool.false_ne_true h1
  · intro a b i ha hb h
    rw [Bool.eq_false_iff]
    intro hc
    have h1 := (float4_nearly_equal_lanes a b).mp hc i
    rw [near_false_of_exact ha hb h] at h1
    exact Bool.false_ne_true h1
  · intro a b i h
    rw [Bool.eq_false_iff]
    intro hc
    have h1 := (float2_nearly_equal_lanes a b).mp hc i
    rw [near_false_of_computed h] at h1
    exact Bool.false_ne_true h1
  · intro a b i h
    rw [Bool.eq_false_iff]
    intro hc
    have h1 := (float4_nearly_equal_lanes a b).mp hc i
    rw [near_false_of_computed h] at h1
    exact Bool.false_ne_true h1

/-- Instance of C2 (amended): `[1.0, 0.0]` and `[1.0 + 2^-23, 0.0]` have
finite lanes and lane 0 differs by exactly `FLT_EPSILON`, so the result is
false; `[1.0, 2.0]` is nearly equal to `[1.0, 2.0]`, so its lanes are
finite and differ by less than `2^-23 - 2^-48`. -/
theorem nearly_equal_iff_rounded_difference_below_epsilon_witness :
    float2_nearly_equal ⟨one, zero⟩ ⟨ofBits 1065353217, zero⟩ = false ∧
    (float2_nearly_equal ⟨one, two⟩ ⟨one, two⟩ = true ∧
      ∀ i, isFinite ((⟨one, two⟩ : vector_float2).lane i) = true ∧
        isFinite ((⟨one, two⟩ : vector_float2).lane i) = true ∧
        |toRat ((⟨one, two⟩ : vector_float2).lane i)
          - toRat ((⟨one, two⟩ : vector_float2).lane i)| < toRat FLT_EPSILON - 1 / 2 ^ 48) := by
  refine ⟨?_, by decide,
    (nearly_equal_iff_rounded_difference_below_epsilon.1 ⟨one, two⟩ ⟨one, two⟩).mp (by decide)⟩
  refine nearly_equal_iff_rounded_difference_below_epsilon.2.2.2.2.2.1
    ⟨one, zero⟩ ⟨ofBits 1065353217, zero⟩ 0 (by decide) (by decide) ?_
  have h := (fadd_eps_unit (x := one) (by decide) (by decide)).2.2
  have e : fadd one FLT_EPSILON = ofBits 1065353217 := by decide
  rw [e] at h
  show |toRat one - toRat (ofBits 1065353217)| = toRat FLT_EPSILON
  rw [h, show toRat one - (toRat one + toRat FLT_EPSILON) = -toRat FLT_EPSILON by ring, abs_neg,
    toRat_eps]
  exact abs_of_pos (by positivity)

/-- C3, as stated, fails in both halves.  First half: with `a = [4.0, 0.0]`
the single-precision sum `4.0 + FLT_EPSILON` is `4.0` again, so the vector
built by adding `FLT_EPSILON` to lane 0 of `a` is nearly equal to `a`.
Second half: `a = [2^-23, 0.0]` and `b = [2^-149, 0.0]` have finite lanes
whose differences are all strictly below `FLT_EPSILON`, and
`float2_nearly_equal a b` is false. -/
theorem nearly_equal_epsilon_step_and_bound_fail :
    (fadd four FLT_EPSILON = four ∧
      float2_nearly_equal ⟨four, zero⟩
        ((⟨four, zero⟩ : vector_float2).setLane 0
          (fadd ((⟨four, zero⟩ : vector_float2).lane 0) FLT_EPSILON)) = true) ∧
    ((∀ i, isFinite ((⟨FLT_EPSILON, zero⟩ : vector_float2).lane i) = true ∧
        isFinite ((⟨minSubnormal, zero⟩ : vector_float2).lane i) = true ∧
        |toRat ((⟨FLT_EPSILON, zero⟩ : vector_float2).lane i)
          - toRat ((⟨minSubnormal, zero⟩ : vector_float2).lane i)| < toRat FLT_EPSILON) ∧
      float2_nearly_equal ⟨FLT_EPSILON, zero⟩ ⟨minSubnormal, zero⟩ = false) := by
  have p126 : (2 : Nat) ^ 126 = 85070591730234615865843651857942052864 := by norm_num
  refine ⟨⟨by decide, by decide⟩, ?_, by decide⟩
  rw [Fin.forall_fin_two]
  refine ⟨⟨by decide, by decide, ?_⟩, ⟨by decide, by decide, ?_⟩⟩
  · show |toRat FLT_EPSILON - toRat minSubnormal| < toRat FLT_EPSILON
    rw [rat_lt_eps_iff, p126]
    decide
  · show |toRat zero - toRat zero| < toRat FLT_EPSILON
    rw [rat_lt_eps_iff, p126]
    decide

/-- C3, amended: if lane `i` of `a` is finite and the single-precision sum
`a[i] + FLT_EPSILON` is exact (finite and equal to the real sum), then the
vector built from `a` by putting that sum in lane `i` is not nearly equal to
`a`; the sum is exact for every lane value from 1 up to, not including, 2
(patterns `0x3f800000` to `0x3fffffff`).  And every pair `a`, `b` whose
lanes are finite with `|a[i] - b[i]| < 2^-23 - 2^-48` in every lane is
nearly equal; that bound on the values says exactly that the
single-precision difference `a[i] - b[i]` (the difference rounded to
nearest, ties to even) is a number of absolute value strictly below
`FLT_EPSILON`, so every pair whose single-precision lane differences are
all such numbers is nearly equal. -/
theorem nearly_equal_after_exact_epsilon_step :
    (∀ (a : vector_float2) (i : Fin 2),
      isFinite (a.lane i) = true → isFinite (fadd (a.lane i) FLT_EPSILON) = true →
      toRat (fadd (a.lane i) FLT_EPSILON) = toRat (a.lane i) + toRat FLT_EPSILON →
        float2_nearly_equal a (a.setLane i (fadd (a.lane i) FLT_EPSILON)) = false) ∧
    (∀ (a : vector_float4) (i : Fin 4),
      isFinite (a.lane i) = true → isFinite (fadd (a.lane i) FLT_EPSILON) = true →
      toRat (fadd (a.lane i) FLT_EPSILON) = toRat (a.lane i) + toRat FLT_EPSILON →
        float4_nearly_equal a (a.setLane i (fadd (a.lane i) FLT_EPSILON)) = false) ∧
    (∀ x : float, 1065353216 ≤ x.bits → x.bits ≤ 1073741823 →
      isFinite x = true ∧ isFinite (fadd x FLT_EPSILON) = true ∧
        toRat (fadd x FLT_EPSILON) = toRat x + toRat FLT_EPSILON) ∧
    (∀ a b : vector_float2,
      (∀ i, isFinite (a.lane i) = true ∧ isFinite (b.lane i) = true ∧
        |toRat (a.lane i) - toRat (b.lane i)| < toRat FLT_EPSILON - 1 / 2 ^ 48) →
        float2_nearly_equal a b = true) ∧
    (∀ a b : vector_float4,
      (∀ i, isFinite (a.lane i) = true ∧ isFinite (b.lane i) = true ∧
        |toRat (a.lane i) - toRat (b.lane i)| < toRat FLT_EPSILON - 1 / 2 ^ 48) →
        float4_nearly_equal a b = true) ∧
    (∀ x y : float,
      (isNaN (fsub x y) = false ∧ |toRat (fsub x y)| < toRat FLT_EPSILON) ↔
        (isFinite x = true ∧ isFinite y = true ∧
          |toRat x - toRat y| < toRat FLT_EPSILON - 1 / 2 ^ 48)) ∧
    (∀ a b : vector_float2,
      (∀ i, isNaN (fsub (a.lane i) (b.lane i)) = false ∧
        |toRat (fsub (a.lane i) (b.lane i))| < toRat FLT_EPSILON) →
        float2_nearly_equal a b = true) ∧
    (∀ a b : vector_float4,
      (∀ i, isNaN (fsub (a.lane i) (b.lane i)) = false ∧
        |toRat (fsub (a.lane i) (b.lane i))| < toRat FLT_EPSILON) →
        float4_nearly_equal a b = true) := by
  refine ⟨?_, ?_, fun x h1 h2 => fadd_eps_unit h1 h2, ?_, ?_,
    fun x y => (near_iff_rat _).symm.trans (near_iff_values x y), ?_, ?_⟩
  · intro a i ha hb h
    rw [Bool.eq_false_iff]
    intro hc
    have h1 := (float2_nearly_equal_lanes a _).mp hc i
    rw [lane_setLane2, near_false_of_step ha hb h] at h1
    exact Bool.false_ne_true h1
  · intro a i ha hb h
    rw [Bool.eq_false_iff]
    intro hc
    have h1 := (float4_nearly_equal_lanes a _).mp hc i
    rw [lane_setLane4, near_false_of_step ha hb h] at h1
    exact Bool.false_ne_true h1
  · intro a b h
    rw [float2_nearly_equal_lanes]
    exact fun i => (near_iff_values _ _).mpr (h i)
  · intro a b h
    rw [float4_nearly_equal_lanes]
    exact fun i => (near_iff_values _ _).mpr (h i)
  · intro a b h
    rw [float2_nearly_equal_lanes]
    exact fun i => (near_iff_rat _).mpr (h i)
  · intro a b h
    rw [float4_nearly_equal_lanes]
    exact fun i => (near_iff_rat _).mpr (h i)

/-- Instance of C3 (amended).  At `a = [1.0, 0.0]`, lane 0: `1.0` has a
pattern between `0x3f800000` and `0x3fffffff`, the sum `1.0 + FLT_EPSILON`
is exact, and the vector with that sum in lane 0 is not nearly equal to
`a`.  At `a = [0.0, 1.0]`, `b = [-0.0, 1.0]`: the lanes are finite with
equal values, so the pair is nearly equal. -/
theorem nearly_equal_after_exact_epsilon_step_witness :
    ((1065353216 ≤ one.bits ∧ one.bits ≤ 1073741823) ∧
      float2_nearly_equal ⟨one, zero⟩
        ((⟨one, zero⟩ : vector_float2).setLane 0
          (fadd ((⟨one, zero⟩ : vector_float2).lane 0) FLT_EPSILON)) = false) ∧
    float2_nearly_equal ⟨zero, one⟩ ⟨negZero, one⟩ = true := by
  have p : (2 : Nat) ^ 126 - 2 ^ 101 = 85070589194933415409384848864535642112 := by norm_num
  refine ⟨⟨by decide,
    nearly_equal_after_exact_epsilon_step.1 ⟨one, zero⟩ 0
      (nearly_equal_after_exact_epsilon_step.2.2.1 one (by decide) (by decide)).1
      (nearly_equal_after_exact_epsilon_step.2.2.1 one (by decide) (by decide)).2.1
      (nearly_equal_after_exact_epsilon_step.2.2.1 one (by decide) (by decide)).2.2⟩, ?_⟩
  apply nearly_equal_after_exact_epsilon_step.2.2.2.1
  rw [Fin.forall_fin_two]
  refine ⟨⟨by decide, by decide, ?_⟩, ⟨by decide, by decide, ?_⟩⟩
  · show |toRat zero - toRat negZero| < toRat FLT_EPSILON - 1 / 2 ^ 48
    rw [rat_lt_threshold_iff, p]
    decide
  · show |toRat one - toRat one| < toRat FLT_EPSILON - 1 / 2 ^ 48
    rw [rat_lt_threshold_iff, p]
    decide

/-- C4: `equal(a, a)` is true exactly when `a` has no NaN lane (so it is
false as soon as one lane is NaN), and `equal(a, b)` is false whenever
some lane of `a` or of `b` is NaN; for `float2_equal` and `float4_equal`. -/
theorem equal_self_iff_no_nan :
    (∀ a : vector_float2, float2_equal a a = true ↔ ∀ i, isNaN (a.lane i) = false) ∧
    (∀ a : vector_float4, float4_equal a a = true ↔ ∀ i, isNaN (a.lane i) = false) ∧
    (∀ (a b : vector_float2) (i : Fin 2),
      isNaN (a.lane i) = true ∨ isNaN (b.lane i) = true → float2_equal a b = false) ∧
    (∀ (a b : vector_float4) (i : Fin 4),
      isNaN (a.lane i) = true ∨ isNaN (b.lane i) = true → float4_equal a b = false) := by
  refine ⟨?_, ?_, ?_, ?_⟩
  · intro a
    rw [float2_equal_lanes]
    refine forall_congr' fun i => ?_
    rw [feq_self]
    simp
  · intro a
    rw [float4_equal_lanes]
    refine forall_congr' fun i => ?_
    rw [feq_self]
    simp
  · intro a b i h
    rw [Bool.eq_false_iff]
    intro hc
    have h1 := (float2_equal_lanes a b).mp hc i
    rcases h with h | h
    · rw [feq_nan_left _ h] at h1
      exact Bool.false_ne_true h1
    · rw [feq_nan_right _ h] at h1
      exact Bool.false_ne_true h1
  · intro a b i h
    rw [Bool.eq_false_iff]
    intro hc
    have h1 := (float4_equal_lanes a b).mp hc i
    rcases h with h | h
    · rw [feq_nan_left _ h] at h1
      exact Bool.false_ne_true h1
    · rw [feq_nan_right _ h] at h1
      exact Bool.false_ne_true h1

/-- Instance of C4: `[1.0, 2.0]` has no NaN lane and equals itself;
`[NaN, 0.0]` has a NaN in lane 0 and does not equal itself. -/
theorem equal_self_iff_no_nan_witness :
    float2_equal ⟨one, two⟩ ⟨one, two⟩ = true ∧
    float2_equal ⟨qNaN, zero⟩ ⟨qNaN, zero⟩ = false :=
  ⟨(equal_self_iff_no_nan.1 ⟨one, two⟩).mpr (by decide),
    equal_self_iff_no_nan.2.2.1 ⟨qNaN, zero⟩ ⟨qNaN, zero⟩ 0 (Or.inl (by decide))⟩

/-- C5: lane `i` of `rint_float2 v` and of `rint_float4 v` is `rintf` of
lane `i` of `v` alone; for a finite lane `x` the result is finite, keeps
the sign of `x`, and its value is an integer `z` with `|x - z| ≤ 1/2`,
the even one when `x` lies exactly half way between two integers; an
infinite lane is returned unchanged and a NaN lane gives NaN; and
`rint_float2 [2.5, -2.5] = [2.0, -2.0]`. -/
theorem rint_rounds_each_lane_to_nearest_even :
    (∀ (v : vector_float2) (i : Fin 2), (rint_float2 v).lane i = rintf (v.lane i)) ∧
    (∀ (v : vector_float4) (i : Fin 4), (rint_float4 v).lane i = rintf (v.lane i)) ∧
    (∀ x : float, isFinite x = true →
      isFinite (rintf x) = true ∧ signBit (rintf x) = signBit x ∧
      ∃ z : Int, toRat (rintf x) = z ∧ |toRat x - z| ≤ 1 / 2 ∧
        (|toRat x - z| = 1 / 2 → Even z)) ∧
    (∀ x : float, isInf x = true → rintf x = x) ∧
    (∀ x : float, isNaN x = true → isNaN (rintf x) = true) ∧
    (rint_float2 ⟨twoAndHalf, negTwoAndHalf⟩ = ⟨two, negTwo⟩ ∧
      toRat twoAndHalf = 5 / 2 ∧ toRat negTwoAndHalf = -(5 / 2) ∧
      toRat two = 2 ∧ toRat negTwo = -2) := by
  refine ⟨rint_float2_lane, rint_float4_lane, ?_, fun x h => rintf_inf h,
    fun x h => rintf_nan h, by decide, ?_, ?_, ?_, ?_⟩
  · intro x hx
    exact ⟨(rintf_finite_spec hx).1, (rintf_finite_spec hx).2.1, rintf_value hx⟩
  · have h : toInt twoAndHalf = 5 * 2 ^ 148 := by
      have e : (5 : Int) * 2 ^ 148 = 1784059615882449851322857461811868920478433280 := by norm_num
      rw [e]
      decide
    have := toRat_half_int h
    rw [this]
    push_cast
    ring
  · have h : toInt negTwoAndHalf = (-5 : Int) * 2 ^ 148 := by
      have e : (-5 : Int) * 2 ^ 148 = -1784059615882449851322857461811868920478433280 := by
        norm_num
      rw [e]
      decide
    have := toRat_half_int h
    rw [this]
    push_cast
    ring
  · have h : toInt two = 2 * 2 ^ 149 := by
      have e : (2 : Int) * 2 ^ 149 = 1427247692705959881058285969449495136382746624 := by norm_num
      rw [e]
      decide
    have := toRat_int h
    exact_mod_cast this
  · have h : toInt negTwo = (-2 : Int) * 2 ^ 149 := by
      have e : (-2 : Int) * 2 ^ 149 = -1427247692705959881058285969449495136382746624 := by
        norm_num
      rw [e]
      decide
    have := toRat_int h
    exact_mod_cast this

/-- Instance of C5 at the finite lane `2.5`. -/
theorem rint_rounds_each_lane_to_nearest_even_witness :
    isFinite twoAndHalf = true ∧ rintf twoAndHalf = two ∧
    ∃ z : Int, toRat (rintf twoAndHalf) = z ∧ |toRat twoAndHalf - z| ≤ 1 / 2 ∧
      (|toRat twoAndHalf - z| = 1 / 2 → Even z) :=
  ⟨by decide, by decide,
    (rint_rounds_each_lane_to_nearest_even.2.2.1 twoAndHalf (by decide)).2.2⟩

/-- C6, as stated, fails: for `v = [NaN, 0.0]` the comparison of
`rint(rint(v))` with `rint(v)` by `float2_equal` is false. -/
theorem rint_idempotence_fails_on_nan :
    float2_equal (rint_float2 (rint_float2 ⟨qNaN, zero⟩)) (rint_float2 ⟨qNaN, zero⟩) = false := by
  decide

/-- C6, amended: for every `v`, `rint(rint(v))` and `rint(v)` are the same
vector, lane for lane and bit for bit; compared with `float2_equal` /
`float4_equal` they are equal exactly when `v` has no NaN lane. -/
theorem rint_idempotent_without_nan :
    (∀ v : vector_float2, rint_float2 (rint_float2 v) = rint_float2 v) ∧
    (∀ v : vector_float4, rint_float4 (rint_float4 v) = rint_float4 v) ∧
    (∀ v : vector_float2,
      float2_equal (rint_float2 (rint_float2 v)) (rint_float2 v) = true ↔
        ∀ i, isNaN (v.lane i) = false) ∧
    (∀ v : vector_float4,
      float4_equal (rint_float4 (rint_float4 v)) (rint_float4 v) = true ↔
        ∀ i, isNaN (v.lane i) = false) := by
  have i2 : ∀ v : vector_float2, rint_float2 (rint_float2 v) = rint_float2 v := by
    intro v
    simp only [rint_float2, V2.rint, rintf_idem]
  have i4 : ∀ v : vector_float4, rint_float4 (rint_float4 v) = rint_float4 v := by
    intro v
    simp only [rint_float4, V4.rint, rintf_idem]
  have key : ∀ x : float, (!isNaN (rintf x)) = true ↔ isNaN x = false := by
    intro x
    cases h : isNaN x
    · simp [rintf_not_nan h]
    · simp [rintf_nan h]
  refine ⟨i2, i4, ?_, ?_⟩
  · intro v
    rw [i2, float2_equal_lanes]
    refine forall_congr' fun i => ?_
    rw [feq_self, rint_float2_lane]
    exact key _
  · intro v
    rw [i4, float4_equal_lanes]
    refine forall_congr' fun i => ?_
    rw [feq_self, rint_float4_lane]
    exact key _

/-- Instance of C6 (amended) at `v = [2.5, -2.5]`, which has no NaN lane. -/
theorem rint_idempotent_without_nan_witness :
    float2_equal (rint_float2 (rint_float2 ⟨twoAndHalf, negTwoAndHalf⟩))
      (rint_float2 ⟨twoAndHalf, negTwoAndHalf⟩) = true :=
  (rint_idempotent_without_nan.2.2.1 ⟨twoAndHalf, negTwoAndHalf⟩).mpr (by decide)

/-- C7: `float2_any_minum v` is true exactly when some lane of `v` is a
number strictly below zero, that is, when some lane has a pattern above
`0x80000000` (`-0.0`) and up to `0xff800000` (`-infinity`); it is false
on `[0.0, 0.0]`, true on `[-0.1, 0.0]`, and false whenever every lane is a
zero of either sign, has a clear sign bit, or is NaN. -/
theorem any_minum_iff_some_lane_below_zero :
    (∀ v : vector_float2, float2_any_minum v = true ↔
      ∃ i, isNaN (v.lane i) = false ∧ toRat (v.lane i) < 0) ∧
    (∀ v : vector_float2, float2_any_minum v = true ↔
      ∃ i, 2147483648 < (v.lane i).bits ∧ (v.lane i).bits ≤ 4286578688) ∧
    float2_any_minum ⟨zero, zero⟩ = false ∧
    float2_any_minum ⟨negTenth, zero⟩ = true ∧
    (∀ v : vector_float2,
      (∀ i, magBits (v.lane i) = 0 ∨ signBit (v.lane i) = false ∨ isNaN (v.lane i) = true) →
        float2_any_minum v = false) := by
  have h1 : ∀ v : vector_float2, float2_any_minum v = true ↔
      ∃ i, isNaN (v.lane i) = false ∧ toInt (v.lane i) < 0 := by
    intro v
    rw [float2_any_minum_iff,
      exists_lane2 v (fun x => isNaN x = false ∧ toInt x < 0), flt_zero_iff, flt_zero_iff]
  refine ⟨?_, ?_, by decide, by decide, ?_⟩
  · intro v
    rw [h1]
    exact exists_congr fun i => and_congr Iff.rfl (toRat_neg_iff _).symm
  · intro v
    rw [float2_any_minum_iff,
      exists_lane2 v (fun x => 2147483648 < x.bits ∧ x.bits ≤ 4286578688),
      flt_zero_bits, flt_zero_bits]
  · intro v h
    rw [Bool.eq_false_iff]
    intro hc
    obtain ⟨i, hn, hlt⟩ := (h1 v).mp hc
    obtain ⟨hs, hm⟩ := toInt_neg_iff.mp hlt
    rcases h i with h | h | h
    · exact hm h
    · rw [hs] at h
      exact Bool.noConfusion h
    · rw [hn] at h
      exact Bool.noConfusion h

/-- Instance of C7: in `[+infinity, NaN]` lane 0 has a clear sign bit and lane 1
is NaN, so no lane is below zero. -/
theorem any_minum_iff_some_lane_below_zero_witness :
    float2_any_minum ⟨posInf, qNaN⟩ = false :=
  any_minum_iff_some_lane_below_zero.2.2.2.2 ⟨posInf, qNaN⟩ (by decide)

/-- C8: `float2_equal` and `float4_equal` are symmetric, for all lanes
(NaN, infinities and signed zeros included). -/
theorem equal_symmetric :
    (∀ a b : vector_float2, float2_equal a b = float2_equal b a) ∧
    (∀ a b : vector_float4, float4_equal a b = float4_equal b a) := by
  constructor
  · intro a b
    simp only [float2_equal, V2.eq, feq_comm a.x b.x, feq_comm a.y b.y]
  · intro a b
    simp only [float4_equal, V4.eq, feq_comm a.x b.x, feq_comm a.y b.y, feq_comm a.z b.z,
      feq_comm a.w b.w]

/-- C10: for vectors whose lanes are all finite, `equal(a, b)` implies
`nearlyEqual(a, b)` (for `float2` and `float4`), so a finite vector is
nearly equal to itself; and without finiteness this fails: `[+infinity, 0.0]`
(and `[+infinity, 0.0, 0.0, 0.0]`) has an infinite lane, equals itself, and is
not nearly equal to itself, the lane difference `inf - inf` being NaN. -/
theorem equal_implies_nearly_equal_on_finite :
    (∀ a b : vector_float2,
      (∀ i, isFinite (a.lane i) = true ∧ isFinite (b.lane i) = true) →
      float2_equal a b = true → float2_nearly_equal a b = true) ∧
    (∀ a b : vector_float4,
      (∀ i, isFinite (a.lane i) = true ∧ isFinite (b.lane i) = true) →
      float4_equal a b = true → float4_nearly_equal a b = true) ∧
    (∀ a : vector_float2, (∀ i, isFinite (a.lane i) = true) →
      float2_nearly_equal a a = true) ∧
    (∀ a : vector_float4, (∀ i, isFinite (a.lane i) = true) →
      float4_nearly_equal a a = true) ∧
    (isInf posInf = true ∧ isNaN (fsub posInf posInf) = true ∧
      float2_equal ⟨posInf, zero⟩ ⟨posInf, zero⟩ = true ∧
      float2_nearly_equal ⟨posInf, zero⟩ ⟨posInf, zero⟩ = false ∧
      float4_equal ⟨posInf, zero, zero, zero⟩ ⟨posInf, zero, zero, zero⟩ = true ∧
      float4_nearly_equal ⟨posInf, zero, zero, zero⟩ ⟨posInf, zero, zero, zero⟩ = false) := by
  have f2 : ∀ a b : vector_float2,
      (∀ i, isFinite (a.lane i) = true ∧ isFinite (b.lane i) = true) →
      float2_equal a b = true → float2_nearly_equal a b = true := by
    intro a b hf he
    rw [float2_nearly_equal_lanes]
    intro i
    exact near_of_feq (hf i).1 (hf i).2 ((float2_equal_lanes a b).mp he i)
  have f4 : ∀ a b : vector_float4,
      (∀ i, isFinite (a.lane i) = true ∧ isFinite (b.lane i) = true) →
      float4_equal a b = true → float4_nearly_equal a b = true := by
    intro a b hf he
    rw [float4_nearly_equal_lanes]
    intro i
    exact near_of_feq (hf i).1 (hf i).2 ((float4_equal_lanes a b).mp he i)
  refine ⟨f2, f4, ?_, ?_, by decide⟩
  · intro a hf
    refine f2 a a (fun i => ⟨hf i, hf i⟩) ?_
    rw [float2_equal_lanes]
    intro i
    rw [feq_self, finite_not_nan (hf i)]
    rfl
  · intro a hf
    refine f4 a a (fun i => ⟨hf i, hf i⟩) ?_
    rw [float4_equal_lanes]
    intro i
    rw [feq_self, finite_not_nan (hf i)]
    rfl

/-- Instance of C10 at `a = [0.0, 1.0]`, `b = [-0.0, 1.0]`: all lanes are
finite, the vectors compare equal, hence they are nearly equal. -/
theorem equal_implies_nearly_equal_on_finite_witness :
    float2_equal ⟨zero, one⟩ ⟨negZero, one⟩ = true ∧
    float2_nearly_equal ⟨zero, one⟩ ⟨negZero, one⟩ = true :=
  ⟨by decide,
    equal_implies_nearly_equal_on_finite.1 ⟨zero, one⟩ ⟨negZero, one⟩ (by decide) (by decide)⟩

end SIMD
